import Mathlib

/-!
Verification of the gdl description language (lexer, parser, decode engine).

This file shallowly embeds the Go sources of the repository:

* `lexer.go` (the string-based sticky-error lexer): namespace `Gdl`,
  `Token`, `Lexer`, `next`, `peek`, `unget`, `skipHorizontalSpace`, `scanWord`.
* the word-list parser (`parse`, `parseValues`, `parseList`, `skipNewlines`,
  `newValue`): namespace `Gdl`.
* `unmarshal.go` (the program compiler/executor): namespace `Gdl`,
  `compile`, `programFor`, `program`, `run`, `findOp`, `setScalarFunc`,
  `idIndex`, `plural`, `lowerFirst`, `UnmarshalValues`.
* the Head/List `UnmarshalValues` of `gdl.go`: namespace `GdlHead`.

Modelling conventions, stated once:

* Go `reflect` types are embedded as the inductive `GoType` (scalar kinds,
  slices, and named struct types resolved through an environment `Env` that
  maps a struct type's name to its visible fields).  Pointer, array, map,
  chan, func and interface kinds are outside the embedding; no claim
  concerns them.  Float kinds are likewise omitted (no claim exercises
  floating point).
* Go runtime values are the inductive `GoVal`; reflect's in-place mutation
  becomes functional update.
* Character classification (`unicode.IsSpace`, `unicode.ToLower`) is
  modelled on the Latin-1 range, where it agrees exactly with Go; every
  word in the claims is ASCII.
* Functions that Go runs on unbounded recursion (the lexer scan loop, the
  parser, program compilation and execution) take an explicit fuel
  parameter so that every definition is a computable total `def`.  Public
  entry points choose fuel from the input size.  Non-termination of the Go
  code surfaces as the distinguished fuel-exhaustion result holding for
  every fuel value.
* `fmt.Errorf`/`errors.New` results become structured error constructors;
  the Go format string is recorded in a comment next to each constructor.
* Go `panic` is a distinguished result constructor, propagated by callers.
-/

namespace Gdl

/-- Go `unicode.IsSpace` restricted to Latin-1 (exact there): space, tab,
newline, vertical tab, form feed, carriage return, NEL, NBSP. -/
def goIsSpace (c : Char) : Bool :=
  c = ' ' || c = '\t' || c = '\n' || c = (Char.ofNat 11) || c = (Char.ofNat 12) ||
  c = '\r' || c = (Char.ofNat 133) || c = (Char.ofNat 160)

/-- Decimal digit test used by the base-10 paths of `strconv` (code
points 48-57). -/
def isDigit (c : Char) : Bool := 48 ≤ c.toNat && c.toNat ≤ 57

/-- Value of a base-10 digit string (arbitrary precision). -/
def digitsVal (cs : List Char) : Nat :=
  cs.foldl (fun a c => 10 * a + (c.toNat - 48)) 0

/-- The two `strconv` error kinds, `ErrSyntax` and `ErrRange`. -/
inductive NumErrKind where
  | synErr
  | rangeErr
deriving DecidableEq, Repr

/-- `strconv.NumError`: the failing function, its input, and the kind. -/
structure NumErr where
  fn : String
  num : String
  kind : NumErrKind
deriving DecidableEq, Repr

/-- Model of `strconv.ParseUint(s, 10, 64)`: no sign permitted, all
characters base-10 digits, value below `2^64`; otherwise `ErrSyntax`
resp. `ErrRange`. -/
def parseUint64 (s : String) : Except NumErr Nat :=
  match s.toList with
  | [] => .error ⟨"ParseUint", s, .synErr⟩
  | ds =>
    if ds.all isDigit then
      let v := digitsVal ds
      if v < 2 ^ 64 then .ok v
      else .error ⟨"ParseUint", s, .rangeErr⟩
    else .error ⟨"ParseUint", s, .synErr⟩

/-- Model of `strconv.ParseInt(s, 10, 64)`: an optional single `+`/`-`
sign followed by a non-empty digit string; the magnitude is range-checked
against the asymmetric `int64` bounds. -/
def parseInt64 (s : String) : Except NumErr Int :=
  match s.toList with
  | [] => .error ⟨"ParseInt", s, .synErr⟩
  | c :: cs =>
    let neg : Bool := c = '-'
    let ds : List Char := if c = '+' || c = '-' then cs else c :: cs
    if ds.isEmpty then .error ⟨"ParseInt", s, .synErr⟩
    else if ds.all isDigit then
      let v := digitsVal ds
      if neg then
        if v > 2 ^ 63 then .error ⟨"ParseInt", s, .rangeErr⟩
        else .ok (-(v : Int))
      else
        if v ≥ 2 ^ 63 then .error ⟨"ParseInt", s, .rangeErr⟩
        else .ok (v : Int)
    else .error ⟨"ParseInt", s, .synErr⟩

/-- Model of `strconv.ParseBool`: the twelve literal spellings accepted by
Go, and nothing else. -/
def parseBool (s : String) : Except NumErr Bool :=
  match s with
  | "1" | "t" | "T" | "TRUE" | "true" | "True" => .ok true
  | "0" | "f" | "F" | "FALSE" | "false" | "False" => .ok false
  | _ => .error ⟨"ParseBool", s, .synErr⟩

/-- Two's-complement truncation performed by `reflect.Value.SetInt` when
storing an `int64` into a narrower signed field (`int8(x)` etc.). -/
def wrapSigned (bits : Nat) (x : Int) : Int :=
  let m : Int := 2 ^ bits
  let r := x % m
  if r < m / 2 then r else r - m

/-- Truncation performed by `reflect.Value.SetUint` for narrower unsigned
fields (`uint8(x)` etc.). -/
def wrapUnsigned (bits : Nat) (x : Nat) : Nat := x % 2 ^ bits

/-- The scalar kinds of the embedding.  `int`/`uint` carry the bit width
(8, 16, 32 or 64; Go's `int`, `uint` and `uintptr` are width 64 here). -/
inductive ScalarKind where
  | string
  | int (bits : Nat)
  | uint (bits : Nat)
  | bool
deriving DecidableEq, Repr

/-- A Go type as seen by the decode engine: a scalar, a slice, or a named
struct type whose fields live in the environment. -/
inductive GoType where
  | scalarT (k : ScalarKind)
  | sliceT (elem : GoType)
  | structT (name : String)
deriving DecidableEq, Repr

/-- A Go runtime value of one of the embedded types. -/
inductive GoVal where
  | vstr (s : String)
  | vint (bits : Nat) (n : Int)
  | vuint (bits : Nat) (n : Nat)
  | vbool (b : Bool)
  | vslice (elems : List GoVal)
  | vstruct (fields : List GoVal)
deriving Repr

/-- The scalar kind of a type, if it has one (the kinds enumerated by the
switch in `setScalarFunc`). -/
def scalarKind (t : GoType) : Option ScalarKind :=
  match t with
  | .scalarT k => some k
  | _ => none

/-- The conversion function `setScalarFunc` returns for a given scalar
kind.  The int/uint cases parse with `strconv.ParseInt`/`ParseUint` at
bit size 64 and then assign with `reflect.Value.SetInt`/`SetUint`, which
truncates to the field's width. -/
def setScalar (k : ScalarKind) (s : String) : Except NumErr GoVal :=
  match k with
  | .string => .ok (.vstr s)
  | .int bits => (parseInt64 s).map fun i => .vint bits (wrapSigned bits i)
  | .uint bits => (parseUint64 s).map fun u => .vuint bits (wrapUnsigned bits u)
  | .bool => (parseBool s).map fun b => .vbool b

/-- `setScalarFunc` from `unmarshal.go`: `some` of a conversion function
for scalar kinds, `none` otherwise. -/
def setScalarFunc (t : GoType) : Option (String → Except NumErr GoVal) :=
  (scalarKind t).map setScalar

/-- The backquote character (written by code point to keep the source
free of literal backticks). -/
def backtickChar : Char := Char.ofNat 96

/-- Outcome of a Go function that may panic. -/
inductive Panics (α : Type) where
  | ok (a : α)
  | panicked (msg : String)
deriving DecidableEq, Repr

/-- Token kinds of `lexer.go`: the rune kinds `'\n'` (also produced for
`';'`), `'('`, `')'`, and the constants `tokWord`, `tokString`, `tokEOF`,
`tokErr`; `invalid` is the zero value of the Go `token` struct. -/
inductive TokKind where
  | invalid
  | nl
  | lparen
  | rparen
  | word
  | str
  | eof
  | err
deriving DecidableEq, Repr

/-- The lexical errors `lexer.go` can produce. -/
inductive LexErr where
  /-- `errors.New("backlash at EOF")` (typo as in the source). -/
  | backslashAtEOF
  /-- `fmt.Errorf("unterminated raw string started on line %d", start)` -/
  | untermRaw (line : Nat)
  /-- `fmt.Errorf("newline in double-quoted string started on line %d", start)` -/
  | newlineInDq (line : Nat)
  /-- `fmt.Errorf("unterminated double-quoted string started on line %d", start)` -/
  | untermDq (line : Nat)
deriving DecidableEq, Repr

/-- The `token` struct of `lexer.go`. -/
structure Token where
  kind : TokKind := .invalid
  val : String := ""
  err : Option LexErr := none
deriving DecidableEq, Repr

/-- The `lexer` struct of `lexer.go`. -/
structure Lexer where
  s : List Char
  filename : String
  lineno : Nat
  ungotten : Bool := false
  untok : Token := {}
  errtok : Token := {}
deriving DecidableEq, Repr

/-- `newLexer` from `lexer.go`. -/
def newLexer (s : String) (filename : String) : Lexer :=
  { s := s.toList, filename := filename, lineno := 1 }

/-- `skipHorizontalSpace`: drop leading space that is not a newline. -/
def skipHorizontalSpace (s : List Char) : List Char :=
  s.dropWhile fun r => r ≠ '\n' && goIsSpace r

/-- Stop characters of `scanWord`: any whitespace; parens; semicolon. -/
def wordStop (r : Char) : Bool :=
  goIsSpace r || r = '(' || r = ')' || r = ';'

/-- `scanWord`: the longest prefix free of stop characters, and the rest. -/
def scanWord (s : List Char) : String × List Char :=
  (⟨s.takeWhile fun r => !wordStop r⟩, s.dropWhile fun r => !wordStop r)

/-- Result of scanning a raw (backquoted) string body: the content before
the closing backquote and the remainder, or unterminated; `nls` counts the
newlines passed over (the Go loop increments `l.lineno` for each). -/
inductive RawRes where
  | closed (inner : List Char) (rest : List Char) (nls : Nat)
  | unterminated (nls : Nat)
deriving DecidableEq, Repr

/-- The scan loop of the backquote case of `next` over `s[1:]`. -/
def scanRawAux : List Char → RawRes
  | [] => .unterminated 0
  | r :: rest =>
    if r = backtickChar then .closed [] rest 0
    else
      match scanRawAux rest with
      | .closed inner rem nls =>
          .closed (r :: inner) rem (if r = '\n' then nls + 1 else nls)
      | .unterminated nls => .unterminated (if r = '\n' then nls + 1 else nls)

/-- Result of scanning a double-quoted string body: closed with content
and remainder, raw newline hit, or unterminated. -/
inductive DqRes where
  | closed (inner : List Char) (rest : List Char)
  | newline
  | unterminated
deriving DecidableEq, Repr

/-- The scan loop of the double-quote case of `next` over `s[1:]`,
tracking whether the previous character was an unconsumed backslash. -/
def scanDqAux : List Char → Bool → DqRes
  | [], _ => .unterminated
  | r :: rest, backslashed =>
    if r = '\n' then .newline
    else if r = '"' && !backslashed then .closed [] rest
    else
      match scanDqAux rest (if backslashed then false else r = '\\') with
      | .closed inner rem => .closed (r :: inner) rem
      | other => other

/-- Outcome of the scanning loop of `next`: a token with the advanced
input and line number, a lexical error (`l.error(...)` path) with the
state at that point, a Go panic, or fuel exhaustion (a modelling
artifact: the loop consumes input on every iteration, so the fuel chosen
by `next` always suffices). -/
inductive ScanOut where
  | res (t : Token) (s : List Char) (lineno : Nat)
  | fail (e : LexErr) (s : List Char) (lineno : Nat)
  | panicked (msg : String)
  | fuel
deriving DecidableEq, Repr

/-- The labelled `loop` of `next` in `lexer.go`, acting on the string and
line counter.  Each branch mirrors one `case` of the Go switch, including
the fall-through to `panic("unreachable")` in the backslash case and the
out-of-range slice in the comment-at-end-of-input case. -/
def nextLoop : Nat → List Char → Nat → ScanOut
  | 0, _, _ => .fuel
  | fuel + 1, s0, lineno =>
    let s := skipHorizontalSpace s0
    match s with
    | [] => .res { kind := .eof } [] lineno
    | c :: rest =>
      if c = '\n' then .res { kind := .nl } rest (lineno + 1)
      else if c = ';' then
        -- Semicolons look like newlines.
        .res { kind := .nl } rest lineno
      else if c = '(' then .res { kind := .lparen } rest lineno
      else if c = ')' then .res { kind := .rparen } rest lineno
      else if c = '/' then
        -- Double slash is a comment to EOL; a single slash starts a word.
        if rest.head? = some '/' then
          let body := rest.tail
          match body.dropWhile (fun r => r ≠ '\n') with
          | [] =>
            match body with
            | [] => .panicked "slice bounds out of range"
            | _ :: btail => .res { kind := .eof } btail lineno
          | after => nextLoop fuel after lineno
        else
          let ws := scanWord s
          .res { kind := .word, val := ws.1 } ws.2 lineno
      else if c = '\\' then
        match skipHorizontalSpace rest with
        | [] => .fail .backslashAtEOF [] lineno
        | d :: dtail =>
          if d = '\n' then
            -- Continuation line. The newline is not a token.
            nextLoop fuel dtail (lineno + 1)
          else .panicked "unreachable"
      else if c = backtickChar then
        match scanRawAux rest with
        | .closed inner rem nls =>
            -- Include quotes, for strconv.Unquote.
            .res { kind := .str, val := ⟨c :: (inner ++ [backtickChar])⟩ } rem (lineno + nls)
        | .unterminated nls => .fail (.untermRaw lineno) s (lineno + nls)
      else if c = '"' then
        match scanDqAux rest false with
        | .closed inner rem => .res { kind := .str, val := ⟨c :: (inner ++ ['"'])⟩ } rem lineno
        | .newline => .fail (.newlineInDq lineno) s lineno
        | .unterminated => .fail (.untermDq lineno) s lineno
      else
        let ws := scanWord s
        .res { kind := .word, val := ws.1 } ws.2 lineno

/-- `func (l *lexer) error(err error) token`: panics if called twice,
otherwise records the sticky error token and returns it. -/
def lexError (l : Lexer) (e : LexErr) : Panics (Token × Lexer) :=
  if l.errtok.kind = .err then .panicked "error called twice"
  else
    let t : Token := { kind := .err, err := some e }
    .ok (t, { l with errtok := t })

/-- `func (l *lexer) next() token`: pushback slot first, then the sticky
error, then the scan loop (fuel `|s|+1` always suffices since every loop
iteration consumes input). -/
def next (l : Lexer) : Panics (Token × Lexer) :=
  if l.ungotten then .ok (l.untok, { l with ungotten := false })
  else if l.errtok.kind = .err then .ok (l.errtok, l)
  else
    match nextLoop (l.s.length + 1) l.s l.lineno with
    | .res t s' ln => .ok (t, { l with s := s', lineno := ln })
    | .fail e s' ln => lexError { l with s := s', lineno := ln } e
    | .panicked m => .panicked m
    | .fuel => .panicked "out of fuel"

/-- `func (l *lexer) unget(tok token)`. -/
def unget (l : Lexer) (tok : Token) : Panics Lexer :=
  if l.ungotten then .panicked "unget twice"
  else .ok { l with untok := tok, ungotten := true }

/-- `func (l *lexer) peek() rune`: fills the pushback slot via `next` if
needed and reports the buffered token's kind. -/
def peek (l : Lexer) : Panics (TokKind × Lexer) :=
  if !l.ungotten then
    match next l with
    | .ok (t, l') => .ok (t.kind, { l' with untok := t, ungotten := true })
    | .panicked m => .panicked m
  else .ok (l.untok.kind, l)

/-- The parser's `Value`: a word list plus source position. -/
structure Value where
  Words : List String
  File : String := ""
  Line : Nat := 0
deriving DecidableEq, Repr

/-- `newValue` builds a Value at the lexer's current position. -/
def newValue (words : List String) (lex : Lexer) : Value :=
  { Words := words, File := lex.filename, Line := lex.lineno }

/-- A hexadecimal digit's value, for the escape sequences of `unquote`
(`unhex` in strconv): code points 48-57 are the decimal digits, 97-102
and 65-70 the lower- and upper-case letter digits. -/
def hexDigitVal (c : Char) : Option Nat :=
  let n := c.toNat
  if 48 ≤ n ∧ n ≤ 57 then some (n - 48)
  else if 97 ≤ n ∧ n ≤ 102 then some (n - 97 + 10)
  else if 65 ≤ n ∧ n ≤ 70 then some (n - 65 + 10)
  else none

/-- One escape sequence after a backslash, as processed by
`strconv.UnquoteChar` with quote character `"`.  `\xHH` and octal
escapes denote bytes in Go; they are modelled as the code point of the
byte value (byte-level string encoding is outside the embedding).
An escaped single quote `\'` is a syntax error inside a double-quoted
literal (`UnquoteChar` accepts it only when the quote character is
`'`), and `\u`/`\U` escapes reject surrogates and values beyond
`utf8.MaxRune`. -/
def unquoteEsc : List Char → Option (Char × List Char)
  | 'a' :: r => some (Char.ofNat 7, r)
  | 'b' :: r => some (Char.ofNat 8, r)
  | 'f' :: r => some (Char.ofNat 12, r)
  | 'n' :: r => some ('\n', r)
  | 'r' :: r => some ('\r', r)
  | 't' :: r => some ('\t', r)
  | 'v' :: r => some (Char.ofNat 11, r)
  | '\\' :: r => some ('\\', r)
  | '"' :: r => some ('"', r)
  | 'x' :: a :: b :: r => do
      let va ← hexDigitVal a
      let vb ← hexDigitVal b
      pure (Char.ofNat (16 * va + vb), r)
  | 'u' :: a :: b :: c :: d :: r => do
      let va ← hexDigitVal a
      let vb ← hexDigitVal b
      let vc ← hexDigitVal c
      let vd ← hexDigitVal d
      let n := ((va * 16 + vb) * 16 + vc) * 16 + vd
      if 0xD800 ≤ n && n < 0xE000 then none else pure (Char.ofNat n, r)
  | 'U' :: a :: b :: c :: d :: e :: f :: g :: h :: r => do
      let va ← hexDigitVal a
      let vb ← hexDigitVal b
      let vc ← hexDigitVal c
      let vd ← hexDigitVal d
      let ve ← hexDigitVal e
      let vf ← hexDigitVal f
      let vg ← hexDigitVal g
      let vh ← hexDigitVal h
      let n := ((((((va * 16 + vb) * 16 + vc) * 16 + vd) * 16 + ve) * 16 + vf) * 16 + vg) * 16 + vh
      if n > 0x10FFFF || (0xD800 ≤ n && n < 0xE000) then none else pure (Char.ofNat n, r)
  | c :: d :: e :: r =>
      if ('0' ≤ c && c ≤ '7') && ('0' ≤ d && d ≤ '7') && ('0' ≤ e && e ≤ '7') then
        let n := (c.toNat - '0'.toNat) * 64 + (d.toNat - '0'.toNat) * 8 + (e.toNat - '0'.toNat)
        if n < 256 then some (Char.ofNat n, r) else none
      else none
  | _ => none

/-- The character loop of `strconv.Unquote` for a double-quoted body:
escapes are decoded, an unescaped quote is a syntax error.  Fueled (every
step consumes at least one character). -/
def unquoteDqAux : Nat → List Char → Option (List Char)
  | 0, _ => none
  | _, [] => some []
  | fuel + 1, '\\' :: r =>
    match unquoteEsc r with
    | some (ch, r') => (unquoteDqAux fuel r').map fun cs => ch :: cs
    | none => none
  | _, '"' :: _ => none
  | fuel + 1, c :: r => (unquoteDqAux fuel r).map fun cs => c :: cs

/-- Entry point for the double-quoted body loop. -/
def unquoteDq (cs : List Char) : Option (List Char) :=
  unquoteDqAux (cs.length + 1) cs

/-- Model of `strconv.Unquote` for the two literal forms the lexer emits:
backquoted raw strings (no inner backquote; carriage returns dropped) and
double-quoted strings (no raw newline; escapes decoded).  Single-quoted
character literals never reach the parser and are not modelled. -/
def unquote (s : String) : Option String :=
  match s.toList with
  | q :: c1 :: rest =>
    let inner := (c1 :: rest).dropLast
    let last := (c1 :: rest).getLastD ' '
    if q ≠ last then none
    else if q = backtickChar then
      if inner.contains backtickChar then none
      else some ⟨inner.filter fun c => c ≠ '\r'⟩
    else if q = '"' then
      if inner.contains '\n' then none
      else (unquoteDq inner).map fun cs => (⟨cs⟩ : String)
    else none
  | _ => none

/-- The structural errors of the parser, with the Go message next to
each constructor. -/
inductive PErr where
  /-- `errors.New("unexpected close paren")` (top level of `parse`). -/
  | unexpectedCloseParen
  /-- `io.ErrUnexpectedEOF`. -/
  | unexpectedEOF
  /-- `errors.New("unexpected newline")`. -/
  | unexpectedNewline
  /-- `errors.New("close delimiter must be followed by newline, EOF or another close delimiter")`. -/
  | closeDelimFollow
  /-- `errors.New("mismatched close delimiter")`. -/
  | mismatchedClose
  /-- A `tokErr` token's error, propagated by the parser. -/
  | lexe (e : LexErr)
  /-- `strconv.Unquote` failed (`ErrSyntax`) on the token value. -/
  | unquoteErr (val : String)
deriving DecidableEq, Repr

/-- Parser outcome: value and lexer state, error and the lexer state at
the error (whose line number the deferred wrapper in `parse` reads), a Go
panic, or fuel exhaustion (modelling artifact). -/
inductive PRes (α : Type) where
  | ok (a : α) (lex : Lexer)
  | err (e : PErr) (lex : Lexer)
  | panicked (msg : String)
  | fuel
deriving DecidableEq, Repr

/-- The loop of `skipNewlines`: read tokens until one is not `'\n'`. -/
def skipNewlinesAux : Nat → Lexer → PRes Token
  | 0, _ => .fuel
  | fuel + 1, lex =>
    match next lex with
    | .panicked m => .panicked m
    | .ok (tok, lex') =>
      if tok.kind = .nl then skipNewlinesAux fuel lex' else .ok tok lex'

/-- `skipNewlines` (self-fueled: each skipped separator consumes input,
except for at most one buffered pushback token). -/
def skipNewlines (lex : Lexer) : PRes Token :=
  skipNewlinesAux (lex.s.length + 2) lex

mutual

/-- The accumulation loop of `parseValues`: `words` holds the words read
so far; each Go `switch` case is one branch. -/
def parseValuesLoop : Nat → List String → Token → Lexer → PRes (List Value)
  | 0, _, _, _ => .fuel
  | fuel + 1, words, tok, lex =>
    match tok.kind with
    | .eof =>
      -- Accept a value that isn't followed by a newline.
      if words.length > 0 then .ok [newValue words lex] lex
      else .err .unexpectedEOF lex
    | .nl =>
      if words.length > 0 then .ok [newValue words lex] lex
      else .err .unexpectedNewline lex
    | .word =>
      match next lex with
      | .ok (tok', lex') => parseValuesLoop fuel (words ++ [tok.val]) tok' lex'
      | .panicked m => .panicked m
    | .str =>
      match unquote tok.val with
      | none => .err (.unquoteErr tok.val) lex
      | some unq =>
        match next lex with
        | .ok (tok', lex') => parseValuesLoop fuel (words ++ [unq]) tok' lex'
        | .panicked m => .panicked m
    | .lparen =>
      match parseList fuel lex .rparen [] with
      | .ok list lex' => .ok (list.map fun lv => newValue (words ++ lv.Words) lex') lex'
      | .err e l => .err e l
      | .panicked m => .panicked m
      | .fuel => .fuel
    | .rparen =>
      -- The close delim is part of the enclosing list.
      if words.length = 0 then .panicked "bad close delimiter"
      else
        match unget lex tok with
        | .ok lex' => .ok [newValue words lex'] lex'
        | .panicked m => .panicked m
    | .err =>
      match tok.err with
      | some e => .err (.lexe e) lex
      | none => .ok [] lex
    | _ => .panicked "bad token kind"

/-- `parseList`, called just after the open delimiter; `vs` accumulates
the expanded values of the groups seen so far. -/
def parseList : Nat → Lexer → TokKind → List Value → PRes (List Value)
  | 0, _, _, _ => .fuel
  | fuel + 1, lex, close, vs =>
    match skipNewlines lex with
    | .panicked m => .panicked m
    | .fuel => .fuel
    | .err e l => .err e l
    | .ok tok lex1 =>
      if tok.kind = .eof then .err .unexpectedEOF lex1
      else if tok.kind = close then
        match peek lex1 with
        | .panicked m => .panicked m
        | .ok (k, lex2) =>
          if k = .err then
            match next lex2 with
            | .ok (t, lex3) =>
              match t.err with
              | some e => .err (.lexe e) lex3
              | none => .ok [] lex3
            | .panicked m => .panicked m
          else if k = close || k = .nl || k = .eof then .ok vs lex2
          else .err .closeDelimFollow lex2
      else if tok.kind = .rparen then .err .mismatchedClose lex1
      else
        match parseValuesLoop fuel [] tok lex1 with
        | .ok vs1 lex2 => parseList fuel lex2 close (vs ++ vs1)
        | .err e l => .err e l
        | .panicked m => .panicked m
        | .fuel => .fuel

end

/-- `parseValues` proper: enter the loop with no words accumulated. -/
def parseValues (fuel : Nat) (tok : Token) (lex : Lexer) : PRes (List Value) :=
  parseValuesLoop fuel [] tok lex

/-- The top-level loop of `parse`: skip separators, then one group per
iteration until end of input. -/
def parseLoop : Nat → Lexer → List Value → PRes (List Value)
  | 0, _, _ => .fuel
  | fuel + 1, lex, vals =>
    match skipNewlines lex with
    | .panicked m => .panicked m
    | .fuel => .fuel
    | .err e l => .err e l
    | .ok tok lex1 =>
      match tok.kind with
      | .eof => .ok vals lex1
      | .rparen => .err .unexpectedCloseParen lex1
      | _ =>
        match parseValuesLoop fuel [] tok lex1 with
        | .ok vs lex2 => parseLoop fuel lex2 (vals ++ vs)
        | .err e l => .err e l
        | .panicked m => .panicked m
        | .fuel => .fuel

/-- Final outcome of `parse`: the deferred handler wraps any error as
`"%s:%d: %w"` with the file name and the lexer's line number at return. -/
inductive ParseOut where
  | ok (vals : List Value)
  | err (filename : String) (line : Nat) (e : PErr)
  | panicked (msg : String)
  | fuel
deriving DecidableEq, Repr

/-- `parse(s, filename)`; the fuel is proportional to the input length
and suffices because every parser step consumes input. -/
def parse (s filename : String) : ParseOut :=
  let lex := newLexer s filename
  match parseLoop (2 * s.toList.length + 16) lex [] with
  | .ok vals _ => .ok vals
  | .err e l => .err filename l.lineno e
  | .panicked m => .panicked m
  | .fuel => .fuel

/-- `Parse(s)` = `parse(s, "<no file>")`. -/
def Parse (s : String) : ParseOut := parse s "<no file>"

/-- A struct field as the decode engine sees it: name, the value of
`reflect.StructTag.Get("gdl")`, and type. -/
structure FieldDef where
  name : String
  gdlTag : String := ""
  type : GoType
deriving DecidableEq, Repr

/-- Type environment: the visible fields of each named struct type
(`reflect.VisibleFields`). -/
def Env : Type := List (String × List FieldDef)

/-- Look a struct type's fields up in the environment. -/
def envLookup (env : Env) (n : String) : Option (List FieldDef) :=
  match env with
  | [] => none
  | (n', fs) :: rest => if n' = n then some fs else envLookup rest n

/-- `plural` from `unmarshal.go`: append "es" after a final 's' or 'x',
otherwise "s". -/
def plural (s : String) : String :=
  if s.length = 0 then s
  else
    match s.toList.getLast? with
    | some 's' => s ++ "es"
    | some 'x' => s ++ "es"
    | _ => s ++ "s"

/-- `lowerFirst` from `unmarshal.go` (`unicode.ToLower` on the first
rune, modelled on ASCII where it agrees with Go). -/
def lowerFirst (s : String) : String :=
  match s.toList with
  | [] => s
  | c :: cs => ⟨c.toLower :: cs⟩

/-- The part of a string after the first comma (`strings.Cut(tag, ",")`'s
`rest`, empty when there is no comma). -/
def afterComma : List Char → List Char
  | [] => []
  | ',' :: r => r
  | _ :: r => afterComma r

/-- `strings.TrimSpace` (Latin-1-exact space predicate). -/
def goTrimSpace (cs : List Char) : List Char :=
  ((cs.dropWhile goIsSpace).reverse.dropWhile goIsSpace).reverse

/-- The compile-time errors of the decode engine. -/
inductive CErr where
  /-- Fuel exhaustion: the modelled rendition of non-terminating
  recursion in `compile`/`programFor`. -/
  | outOfFuel
  /-- `fmt.Errorf("%s is not a struct", t)`. -/
  | notAStruct (t : GoType)
  /-- A struct name missing from the environment (an artifact of the
  name-indirected type representation; cannot arise from `reflect`). -/
  | unknownType (name : String)
  /-- `fmt.Errorf("ID field %s must be a string", f0.Name)`. -/
  | idNotString (fieldName : String)
  /-- `fmt.Errorf("scalar slice field %s must be last field in struct %s", ...)`. -/
  | scalarSliceNotLast (fieldName : String) (t : GoType)
deriving DecidableEq, Repr

/-- `idIndex` from `unmarshal.go`: the first field is the ID field when
its `gdl` tag's part after the comma trims to `"id"`; it must then be a
string.  The Go `[]int` index is modelled as `some 0`. -/
def idIndex (sfs : List FieldDef) : Except CErr (Option Nat) :=
  match sfs with
  | [] => .ok none
  | f0 :: _ =>
    if f0.gdlTag = "" then .ok none
    else if goTrimSpace (afterComma f0.gdlTag.toList) ≠ "id".toList then .ok none
    else if f0.type = .scalarT .string then .ok (some 0)
    else .error (.idNotString f0.name)

/-- Keys of the `ops` map of a program: an integer index or a word. -/
inductive OpKey where
  | idx (i : Nat)
  | word (w : String)
deriving DecidableEq, Repr

mutual

/-- An operation of a compiled program.  The Go `op` closures are
represented by what they capture: the field index (`sf.Index`), the
scalar kind whose conversion function they hold, or the element type's
compiled subprogram. -/
inductive Op where
  | opScalar (fieldIdx : Nat) (k : ScalarKind)
  | opScalarSlice (fieldIdx : Nat) (k : ScalarKind)
  | opStructSlice (fieldIdx : Nat) (sub : Program)

/-- The `program` struct of `unmarshal.go`. -/
inductive Program where
  | mk (t : GoType) (idIdx : Option Nat) (ops : List (OpKey × Op))

end

/-- The target type of a program (field `t`). -/
def Program.t : Program → GoType
  | .mk t _ _ => t

/-- The ID-field index of a program (field `idIndex`). -/
def Program.idIdx : Program → Option Nat
  | .mk _ ii _ => ii

/-- The operation map of a program (field `ops`). -/
def Program.ops : Program → List (OpKey × Op)
  | .mk _ _ ops => ops

/-- Go map assignment `m[k] = v`: replace an existing binding or add a
new one. -/
def opsInsert (m : List (OpKey × Op)) (k : OpKey) (v : Op) : List (OpKey × Op) :=
  match m with
  | [] => [(k, v)]
  | (k', v') :: rest => if k' = k then (k, v) :: rest else (k', v') :: opsInsert rest k v

/-- Go map lookup `m[k]`. -/
def opsLookup (m : List (OpKey × Op)) (k : OpKey) : Option Op :=
  match m with
  | [] => none
  | (k', v') :: rest => if k' = k then some v' else opsLookup rest k

/-- The process-wide `programs sync.Map`, threaded explicitly. -/
def Cache : Type := List (GoType × Program)

/-- `programs.Load(t)`. -/
def cacheLookup (cache : Cache) (t : GoType) : Option Program :=
  match cache with
  | [] => none
  | (t', p) :: rest => if t' = t then some p else cacheLookup rest t

mutual

/-- `compile` from `unmarshal.go`.  Fuel models the unbounded recursion
through element types; every recursive call decrements it. -/
def compile (env : Env) : Nat → Cache → GoType → Except CErr (Program × Cache)
  | 0, _, _ => .error .outOfFuel
  | fuel + 1, cache, t =>
    match t with
    | .structT name =>
      match envLookup env name with
      | none => .error (.unknownType name)
      | some sfs0 =>
        match idIndex sfs0 with
        | .error e => .error e
        | .ok ii =>
          -- The ID field is set outside the program for this type, so skip it.
          -- It is always the first field.
          let sfs := if ii.isSome then sfs0.tail else sfs0
          let off := if ii.isSome then 1 else 0
          match compileFields env fuel cache t sfs.length off sfs 0 [] with
          | .error e => .error e
          | .ok (ops, cache') => .ok (.mk t ii ops, cache')
    | _ => .error (.notAStruct t)

/-- The field loop of `compile`: `total` is `len(sfs)`, `off` the offset
of `sfs` within the original visible fields (1 when an ID field was
skipped), `i` the loop index, `ops` the map built so far.  The
`programFor` call for a struct-slice element type is inlined (cache
lookup, compile, store). -/
def compileFields (env : Env) :
    Nat → Cache → GoType → Nat → Nat → List FieldDef → Nat → List (OpKey × Op) →
    Except CErr (List (OpKey × Op) × Cache)
  | 0, _, _, _, _, _, _, _ => .error .outOfFuel
  | _ + 1, cache, _, _, _, [], _, ops => .ok (ops, cache)
  | fuel + 1, cache, t, total, off, sf :: rest, i, ops =>
    match scalarKind sf.type with
    | some k =>
      -- sf is of scalar type: it matches by position.
      compileFields env fuel cache t total off rest (i + 1)
        (opsInsert ops (.idx i) (.opScalar (off + i) k))
    | none =>
      match sf.type with
      | .sliceT elemType =>
        match scalarKind elemType with
        | some k =>
          -- sf is a slice of scalars: it takes the rest of the words.
          if i + 1 ≠ total then .error (.scalarSliceNotLast sf.name t)
          else
            compileFields env fuel cache t total off rest (i + 1)
              (opsInsert ops (.idx i) (.opScalarSlice (off + i) k))
        | none =>
          -- A slice of non-scalar type: match on field name.
          -- (The pointer-element unwrap of the Go code is not modelled;
          -- pointer types are outside the embedding.)
          match cacheLookup cache elemType with
          | some sub =>
            compileFields env fuel cache t total off rest (i + 1)
              (opsInsert (opsInsert ops (.word sf.name) (.opStructSlice (off + i) sub))
                (.word (lowerFirst sf.name)) (.opStructSlice (off + i) sub))
          | none =>
            match compile env fuel cache elemType with
            | .error e => .error e
            | .ok (sub, c') =>
              compileFields env fuel ((elemType, sub) :: c') t total off rest (i + 1)
                (opsInsert (opsInsert ops (.word sf.name) (.opStructSlice (off + i) sub))
                  (.word (lowerFirst sf.name)) (.opStructSlice (off + i) sub))
      | _ =>
        -- Kinds other than Slice fall out of the switch: no op registered.
        compileFields env fuel cache t total off rest (i + 1) ops

end

/-- `programFor` from `unmarshal.go`: cache lookup, compile on a miss,
then store ("first caller wins" modelled as prepend). -/
def programFor (env : Env) (fuel : Nat) (cache : Cache) (t : GoType) :
    Except CErr (Program × Cache) :=
  match cacheLookup cache t with
  | some p => .ok (p, cache)
  | none =>
    match compile env fuel cache t with
    | .ok (p, c') => .ok (p, (t, p) :: c')
    | .error e => .error e

/-- The run-time errors of the decode engine. -/
inductive RunErr where
  /-- Fuel exhaustion (modelling artifact; execution consumes words). -/
  | fuelOut
  /-- `fmt.Errorf("could not set %q at index %d into value of type %s, words=%v", ws[0], i, rv.Type(), words)`. -/
  | noOp (w : String) (i : Nat) (t : GoType) (words : List String)
  /-- A scalar conversion error returned by a `setScalarFunc` function. -/
  | num (e : NumErr)
  /-- `errors.New("no words for struct with ID")`. -/
  | noWordsForID
  /-- A Go panic raised during execution (shape mismatches that cannot
  arise for records of the program's type). -/
  | panicked (msg : String)
  /-- A compile error surfaced through `unmarshalValue`. -/
  | cerr (e : CErr)
  /-- `fmt.Errorf("%s:%d: %w", v.File, v.Line, err)`. -/
  | ctx (file : String) (line : Nat) (e : RunErr)
  /-- `fmt.Errorf("gdl.UnmarshalValues: second argument must be pointer to struct, not %T", p)`. -/
  | badTarget
deriving DecidableEq, Repr

/-- `findOp` from `unmarshal.go`: exact index first, then the word with
its first rune lower-cased, then that word's plural.  The boolean is
whether it matched on index. -/
def findOp (p : Program) (i : Nat) (w : String) : Option (Op × Bool) :=
  match opsLookup p.ops (.idx i) with
  | some op => some (op, true)
  | none =>
    match opsLookup p.ops (.word (lowerFirst w)) with
    | some op => some (op, false)
    | none =>
      match opsLookup p.ops (.word (plural (lowerFirst w))) with
      | some op => some (op, false)
      | none => none

/-- `rv.FieldByIndexErr(sf.Index)` for the flat field indices of the
embedding.  The error paths are Go panics here because the nil-pointer
case of `FieldByIndexErr` cannot arise without pointer types. -/
def fieldByIndex (rv : GoVal) (i : Nat) : Except RunErr GoVal :=
  match rv with
  | .vstruct fs =>
    match fs.get? i with
    | some v => .ok v
    | none => .error (.panicked "reflect: field index out of range")
  | _ => .error (.panicked "reflect: Field of non-struct value")

/-- Functional update of a struct field. -/
def setFieldAt (rv : GoVal) (i : Nat) (v : GoVal) : GoVal :=
  match rv with
  | .vstruct fs => .vstruct (fs.set i v)
  | other => other

/-- The zero `reflect` value of a scalar kind. -/
def zeroScalar : ScalarKind → GoVal
  | .string => .vstr ""
  | .int bits => .vint bits 0
  | .uint bits => .vuint bits 0
  | .bool => .vbool false

/-- `reflect.Zero(t)`: zero scalars, nil (empty) slices, and structs of
zero-valued fields.  The fuel bounds the struct-name indirection; Go
types cannot nest by value cyclically, so it is an artifact. -/
def zeroValue (env : Env) : Nat → GoType → GoVal
  | _, .scalarT k => zeroScalar k
  | _, .sliceT _ => .vslice []
  | 0, .structT _ => .vstruct []
  | fuel + 1, .structT n =>
    .vstruct (((envLookup env n).getD []).map fun fd => zeroValue env fuel fd.type)

/-- `idf.Interface() == words[0]`: Go interface equality of the ID field
against the key; a non-string field value never equals a string. -/
def idMatches (v : GoVal) (key : String) : Bool :=
  match v with
  | .vstr s => s = key
  | _ => false

/-- The ID scan loop of the struct-slice op: `elem` walks the elements,
`break` on the first ID match; after the loop `elem` is the last element
inspected whether or not it matched, and it is invalid (`none`) only when
the collection was empty. -/
def idScanLoop (idIdx : Nat) (key : String) : List GoVal → Nat → Except RunErr (Option Nat)
  | [], _ => .ok none
  | [e], i =>
    match fieldByIndex e idIdx with
    | .error err => .error err
    | .ok _ => .ok (some i)
  | e :: rest, i =>
    match fieldByIndex e idIdx with
    | .error err => .error err
    | .ok idf => if idMatches idf key then .ok (some i) else idScanLoop idIdx key rest (i + 1)

/-- Append each word as a parsed element (`opScalarSlice`'s loop). -/
def appendParsed (k : ScalarKind) (fv : List GoVal) : List String → Except RunErr (List GoVal)
  | [] => .ok fv
  | w :: rest =>
    match setScalar k w with
    | .error e => .error (.num e)
    | .ok v => appendParsed k (fv ++ [v]) rest

mutual

/-- The loop of `run`: `words` is the full original list, `ws` the
remaining suffix; the offset is `len(words) - len(ws)`; a by-name match
strips the selector word before the operation runs. -/
def runLoop (env : Env) : Nat → Program → GoVal → List String → List String → Except RunErr GoVal
  | 0, _, _, _, _ => .error .fuelOut
  | fuel + 1, p, rv, words, ws =>
    match ws with
    | [] => .ok rv
    | w :: _ =>
      let i := words.length - ws.length
      match findOp p i w with
      | none => .error (.noOp w i p.t words)
      | some (op, byIndex) =>
        let ws1 := if byIndex then ws else ws.tail
        match applyOp env fuel op rv ws1 with
        | .error e => .error e
        | .ok (rv', ws') => runLoop env fuel p rv' words ws'

/-- One operation applied to the record and the words handed to it;
returns the updated record and the remaining words. -/
def applyOp (env : Env) : Nat → Op → GoVal → List String → Except RunErr (GoVal × List String)
  | 0, _, _, _ => .error .fuelOut
  | _ + 1, .opScalar fidx k, rv, words =>
    match fieldByIndex rv fidx with
    | .error e => .error e
    | .ok _ =>
      match words with
      | [] => .error (.panicked "index out of range")
      | w :: rest =>
        match setScalar k w with
        | .error e => .error (.num e)
        | .ok v => .ok (setFieldAt rv fidx v, rest)
  | _ + 1, .opScalarSlice fidx k, rv, words =>
    match fieldByIndex rv fidx with
    | .error e => .error e
    | .ok (.vslice es) =>
      match appendParsed k es words with
      | .error e => .error e
      | .ok es' => .ok (setFieldAt rv fidx (.vslice es'), [])
    | .ok _ => .error (.panicked "reflect: Append of non-slice value")
  | fuel + 1, .opStructSlice fidx sub, rv, words =>
    match fieldByIndex rv fidx with
    | .error e => .error e
    | .ok (.vslice es) =>
      match sub.idIdx with
      | some idIdx =>
        match words with
        | [] => .error .noWordsForID
        | key :: rest =>
          match idScanLoop idIdx key es 0 with
          | .error e => .error e
          | .ok (some j) =>
            -- Reuse the element the scan stopped at (the first match, or
            -- the last element when nothing matched).
            match es.get? j with
            | none => .error (.panicked "index out of range")
            | some elem =>
              match runLoop env fuel sub elem rest rest with
              | .error e => .error e
              | .ok elem' => .ok (setFieldAt rv fidx (.vslice (es.set j elem')), [])
          | .ok none =>
            -- Append a new zero element and set its ID field to the key.
            let ze := zeroValue env fuel sub.t
            match fieldByIndex ze idIdx with
            | .error e => .error e
            | .ok (.vstr _) =>
              let ze := setFieldAt ze idIdx (.vstr key)
              match runLoop env fuel sub ze rest rest with
              | .error e => .error e
              | .ok elem' => .ok (setFieldAt rv fidx (.vslice (es ++ [elem'])), [])
            | .ok _ => .error (.panicked "reflect: SetString of non-string value")
      | none =>
        -- No ID field: always append a new zero element before recursing.
        let ze := zeroValue env fuel sub.t
        match runLoop env fuel sub ze words words with
        | .error e => .error e
        | .ok elem' => .ok (setFieldAt rv fidx (.vslice (es ++ [elem'])), [])
    | .ok _ => .error (.panicked "reflect: Append of non-slice value")

end

/-- `run`: enter the loop with all words remaining. -/
def run (env : Env) (fuel : Nat) (p : Program) (rv : GoVal) (words : List String) :
    Except RunErr GoVal :=
  runLoop env fuel p rv words words

/-- `unmarshalValue` from `unmarshal.go`: compile (or fetch) the program
for the target struct type and run it; errors are wrapped with the
Value's file and line. -/
def unmarshalValue (env : Env) (fuel : Nat) (cache : Cache) (v : Value) (t : GoType)
    (rv : GoVal) : Except RunErr GoVal × Cache :=
  match t with
  | .structT _ =>
    match programFor env fuel cache t with
    | .error e => (.error (.ctx v.File v.Line (.cerr e)), cache)
    | .ok (prog, cache') =>
      match run env fuel prog rv v.Words with
      | .error e => (.error (.ctx v.File v.Line e), cache')
      | .ok rv' => (.ok rv', cache')
  | _ => (.error (.panicked "expected struct"), cache)

/-- The loop of `UnmarshalValues`: unmarshal each Value in turn into the
same record, stopping at the first error. -/
def unmarshalValuesLoop (env : Env) (fuel : Nat) :
    Cache → List Value → GoType → GoVal → Except RunErr GoVal × Cache
  | cache, [], _, rv => (.ok rv, cache)
  | cache, v :: vs, t, rv =>
    match unmarshalValue env fuel cache v t rv with
    | (.ok rv', cache') => unmarshalValuesLoop env fuel cache' vs t rv'
    | (.error e, cache') => (.error e, cache')

/-- `UnmarshalValues` from `unmarshal.go` (the word-list decoder): the
second argument must be (a pointer to) a struct; then each Value is
unmarshaled in turn into the same record. -/
def UnmarshalValues (env : Env) (fuel : Nat) (cache : Cache) (vals : List Value)
    (t : GoType) (rv : GoVal) : Except RunErr GoVal × Cache :=
  match t with
  | .structT _ => unmarshalValuesLoop env fuel cache vals t rv
  | _ => (.error .badTarget, cache)

end Gdl

/-!
The Head/List generation of the library (`gdl.go`): its `Value` has a
head word-list and a list of sub-Values, and its `UnmarshalValues`
dispatches each Value's first head word to a struct field, appending for
collection fields and requiring uniqueness for the rest.  It shares the
type/value model of namespace `Gdl`.  The `Map`, `Pointer`, `Interface`,
`Array`, `Chan` and `Func` branches of `unmarshalReflectValue` concern
kinds outside the embedding and are not modelled.
-/

namespace GdlHead

open Gdl (GoType ScalarKind GoVal NumErr NumErrKind FieldDef Env envLookup
  parseInt64 parseUint64 parseBool wrapSigned wrapUnsigned zeroValue)

/-- The `Value` of `gdl.go`: head words, a list of sub-Values, and the
source position. -/
inductive Value where
  | mk (Head : List String) (List : List Value) (File : String) (Line : Nat)
deriving Repr

/-- The head of a Value. -/
def Value.Head : Value → List String
  | .mk h _ _ _ => h

/-- The list of a Value. -/
def Value.List : Value → List Value
  | .mk _ l _ _ => l

/-- The file of a Value. -/
def Value.File : Value → String
  | .mk _ _ f _ => f

/-- The line of a Value. -/
def Value.Line : Value → Nat
  | .mk _ _ _ n => n

/-- `func (v Value) Pos() string`. -/
def Value.Pos (v : Value) : String :=
  if v.File = "" && v.Line = 0 then "?"
  else if v.Line = 0 then v.File
  else if v.File = "" then "?:" ++ toString v.Line
  else v.File ++ ":" ++ toString v.Line

/-- The errors of the Head/List decoder, Go messages in the comments. -/
inductive UErr where
  /-- Fuel exhaustion (modelling artifact). -/
  | fuelOut
  /-- `fmt.Errorf("%s: value has no head", val.Pos())`. -/
  | noHead (pos : String)
  /-- `fmt.Errorf("%s: value has empty head", val.Pos())`. -/
  | emptyHead (pos : String)
  /-- `fmt.Errorf("%s: no field in struct matches %q", val.Pos(), key)`. -/
  | noFieldMatches (pos : String) (key : String)
  /-- `fmt.Errorf("%s: key %q occurs more than once", val.Pos(), key)`. -/
  | occursMoreThanOnce (pos : String) (key : String)
  /-- `errors.New("cannot unmarshal a value that has both a head and a list into a slice or array")`. -/
  | bothHeadAndList
  /-- `errors.New("scalar requires Value with only one head element")`. -/
  | scalarNeedsOneHead
  /-- A `strconv` failure inside `unmarshalScalar`. -/
  | num (e : NumErr)
  /-- `fmt.Errorf("cannot unmarshal into scalar type %s", rv.Type())`. -/
  | cannotUnmarshalScalar (t : GoType)
  /-- `errors.New("field value has no head")`. -/
  | fieldNoHead
  /-- `fmt.Errorf("duplicate struct field key: %q", key)`. -/
  | dupFieldKey (key : String)
  /-- `fmt.Errorf("field %s: saw '*' and field name or other '*' in same struct", f.Name)`. -/
  | starConflict (fieldName : String)
  /-- `fmt.Errorf("field %s: index %d is out of range of value head", f.Name, i)`. -/
  | idxOutOfRange (fieldName : String) (i : Int)
  /-- `fmt.Errorf("field %s: duplicate index %d", f.Name, i)`. -/
  | dupIdx (fieldName : String) (i : Int)
  /-- `fmt.Errorf("field %s: duplicate name %q or saw '*'", f.Name, name)`. -/
  | dupName (fieldName : String) (name : String)
  /-- A Go panic (shape mismatches that cannot arise for well-typed records). -/
  | panicked (msg : String)
  /-- `fmt.Errorf("gdl.UnmarshalValues into %s: %w", rv.Type(), err)`. -/
  | into (t : GoType) (e : UErr)
  /-- `fmt.Errorf("gdl.UnmarshalValues: second argument must be pointer to struct, not %T", p)`. -/
  | badTarget
deriving DecidableEq, Repr

/-- `strings.ToLower`, modelled on ASCII where it agrees with Go. -/
def toLowerStr (s : String) : String := ⟨s.toList.map Char.toLower⟩

/-- `strings.EqualFold`, modelled as ASCII case-insensitive equality. -/
def eqFold (a b : String) : Bool :=
  a.toList.map Char.toLower = b.toList.map Char.toLower

/-- The plural `matchField` builds: append "es" after a final 's' or
'x', otherwise "s". -/
def matchFieldPlural (s : String) : String :=
  match s.toList.getLast? with
  | some 's' => s ++ "es"
  | some 'x' => s ++ "es"
  | _ => s ++ "s"

/-- `matchField` from `gdl.go`: the first field whose name equals the
word or its plural case-insensitively, with its position (the flat
`StructField.Index`). -/
def matchField (s : String) (fields : List FieldDef) : Option (Nat × FieldDef) :=
  let ps := matchFieldPlural s
  let rec go : List FieldDef → Nat → Option (Nat × FieldDef)
    | [], _ => none
    | sf :: rest, i =>
      if eqFold s sf.name || eqFold ps sf.name then some (i, sf) else go rest (i + 1)
  go fields 0

/-- `unmarshalScalar` from `gdl.go`: `strconv` conversion per kind, with
`SetInt`/`SetUint` truncation for narrow fields. -/
def unmarshalScalar (s : String) (t : GoType) : Except UErr GoVal :=
  match t with
  | .scalarT .string => .ok (.vstr s)
  | .scalarT (.int bits) =>
    match parseInt64 s with
    | .error e => .error (.num e)
    | .ok i => .ok (.vint bits (wrapSigned bits i))
  | .scalarT (.uint bits) =>
    match parseUint64 s with
    | .error e => .error (.num e)
    | .ok u => .ok (.vuint bits (wrapUnsigned bits u))
  | .scalarT .bool =>
    match parseBool s with
    | .error e => .error (.num e)
    | .ok b => .ok (.vbool b)
  | _ => .error (.cannotUnmarshalScalar t)

/-- `headRest(v)`: `v` with the first head word removed (panics when the
head is empty; all call sites guarantee a non-empty head). -/
def headRest (v : Value) : Except UErr Value :=
  match v.Head with
  | [] => .error (.panicked "slice bounds out of range")
  | _ :: rest => .ok (.mk rest v.List v.File v.Line)

/-- The `valuesByKey` construction of `unmarshalStruct`: keys are the
lowered first head words; a repeat is an error. -/
def buildValuesByKey (acc : List (String × Value)) : List Value → Except UErr (List (String × Value))
  | [] => .ok acc
  | lv :: rest =>
    match lv.Head with
    | [] => .error .fieldNoHead
    | h :: _ =>
      let key := toLowerStr h
      if (acc.lookup key).isSome then .error (.dupFieldKey key)
      else buildValuesByKey (acc ++ [(key, lv)]) rest

/-- Keys of the `saw` map of `unmarshalStruct` (`map[any]bool`). -/
inductive SawKey where
  | star
  | idx (i : Int)
  | nm (s : String)
deriving DecidableEq, Repr

mutual

/-- `unmarshalReflectValue` from `gdl.go`, for the embedded kinds:
slices (head or list, not both), structs, and scalars (single head word,
no list). -/
def unmarshalReflectValue (env : Env) : Nat → Value → GoType → GoVal → Except UErr GoVal
  | 0, _, _, _ => .error .fuelOut
  | fuel + 1, v, t, cur =>
    match t with
    | .sliceT et =>
      if v.Head.length = 0 then
        match cur with
        | .vslice es => unmarshalSliceOrArray env fuel v.List et es
        | _ => .error (.panicked "reflect: not a slice")
      else if v.List.length = 0 then
        match cur with
        | .vslice es =>
          unmarshalSliceOrArray env fuel
            (v.Head.map fun h => Value.mk [h] [] v.File v.Line) et es
        | _ => .error (.panicked "reflect: not a slice")
      else .error .bothHeadAndList
    | .structT n => unmarshalStruct env fuel v n cur
    | .scalarT _ =>
      match v.Head, v.List with
      | [h], [] => unmarshalScalar h t
      | _, _ => .error .scalarNeedsOneHead

/-- `unmarshalSliceOrArray` from `gdl.go` restricted to slices: extend
with zero elements as needed, then unmarshal element by element.  The
result is the updated element list. -/
def unmarshalSliceOrArray (env : Env) : Nat → List Value → GoType → List GoVal → Except UErr GoVal
  | 0, _, _, _ => .error .fuelOut
  | fuel + 1, vs, et, es =>
    let es :=
      if vs.length > es.length then
        es ++ List.replicate (vs.length - es.length) (zeroValue env fuel et)
      else es
    match unmarshalSliceLoop env fuel vs et es 0 with
    | .error e => .error e
    | .ok es' => .ok (.vslice es')

/-- The per-index loop of `unmarshalSliceOrArray`. -/
def unmarshalSliceLoop (env : Env) : Nat → List Value → GoType → List GoVal → Nat → Except UErr (List GoVal)
  | 0, _, _, _, _ => .error .fuelOut
  | _ + 1, [], _, es, _ => .ok es
  | fuel + 1, v :: rest, et, es, i =>
    match es.get? i with
    | none => .error (.panicked "index out of range")
    | some cure =>
      match unmarshalReflectValue env fuel v et cure with
      | .error e => .error e
      | .ok e' => unmarshalSliceLoop env fuel rest et (es.set i e') (i + 1)

/-- `unmarshalStruct` from `gdl.go`: index the list by lowered first
words, then walk the visible fields, honoring `gdl` tags (`"*"`, integer
head indices, or name overrides). -/
def unmarshalStruct (env : Env) : Nat → Value → String → GoVal → Except UErr GoVal
  | 0, _, _, _ => .error .fuelOut
  | fuel + 1, v, n, cur =>
    match envLookup env n with
    | none => .error (.panicked "unknown struct type")
    | some flds =>
      match cur with
      | .vstruct fs =>
        match buildValuesByKey [] v.List with
        | .error e => .error e
        | .ok vbk =>
          match unmarshalStructFields env fuel v vbk flds 0 fs [] false with
          | .error e => .error e
          | .ok fs' => .ok (.vstruct fs')
      | _ => .error (.panicked "reflect: not a struct")

/-- The field loop of `unmarshalStruct`; `saw` and `sawNonStarString`
mirror the Go locals, `idx` the position of the current field. -/
def unmarshalStructFields (env : Env) :
    Nat → Value → List (String × Value) → List FieldDef → Nat → List GoVal →
    List SawKey → Bool → Except UErr (List GoVal)
  | 0, _, _, _, _, _, _, _ => .error .fuelOut
  | _ + 1, _, _, [], _, fs, _, _ => .ok fs
  | fuel + 1, v, vbk, f :: rest, idx, fs, saw, sawNonStarString =>
    match fs.get? idx with
    | none => .error (.panicked "field index out of range")
    | some fv =>
      let name := if f.gdlTag ≠ "" then f.gdlTag else f.name
      if name = "*" then
        -- The name "*" means use the entire list, without field prefixes.
        if saw.contains .star || sawNonStarString then .error (.starConflict f.name)
        else
          match unmarshalReflectValue env fuel (.mk [] v.List v.File v.Line) f.type fv with
          | .error e => .error e
          | .ok fv' =>
            unmarshalStructFields env fuel v vbk rest (idx + 1) (fs.set idx fv')
              (saw ++ [.star]) sawNonStarString
      else
        match parseInt64 name with
        | .ok i =>
          -- An integer name is an index into Head.
          if i ≤ 0 || i ≥ (v.Head.length : Int) then .error (.idxOutOfRange f.name i)
          else if saw.contains (.idx i) then .error (.dupIdx f.name i)
          else
            match v.Head.get? i.toNat with
            | none => .error (.panicked "index out of range")
            | some h =>
              match unmarshalScalar h f.type with
              | .error e => .error e
              | .ok fv' =>
                unmarshalStructFields env fuel v vbk rest (idx + 1) (fs.set idx fv')
                  (saw ++ [.idx i]) sawNonStarString
        | .error _ =>
          -- Non-integer name: find list value case-insensitively; skip
          -- the field if absent.
          if saw.contains (.nm name) || saw.contains .star then .error (.dupName f.name name)
          else
            match vbk.lookup (toLowerStr name) with
            | some lv =>
              match headRest lv with
              | .error e => .error e
              | .ok lv' =>
                match unmarshalReflectValue env fuel lv' f.type fv with
                | .error e => .error e
                | .ok fv' =>
                  unmarshalStructFields env fuel v vbk rest (idx + 1) (fs.set idx fv')
                    (saw ++ [.nm name]) true
            | none =>
              unmarshalStructFields env fuel v vbk rest (idx + 1) fs
                (saw ++ [.nm name]) true

end

/-- The loop of the Head/List `UnmarshalValues`: `seen` is the set of
selector keys already used for non-collection fields. -/
def unmarshalValuesLoop (env : Env) :
    Nat → List Value → List FieldDef → GoVal → List String → Except UErr GoVal
  | 0, _, _, _, _ => .error .fuelOut
  | _ + 1, [], _, rv, _ => .ok rv
  | fuel + 1, val :: rest, sfs, rv, seen =>
    match val.Head with
    | [] => .error (.noHead val.Pos)
    | key :: _ =>
      if key = "" then .error (.emptyHead val.Pos)
      else
        match matchField key sfs with
        | none => .error (.noFieldMatches val.Pos key)
        | some (j, sf) =>
          match rv with
          | .vstruct fs =>
            match fs.get? j with
            | none => .error (.panicked "field index out of range")
            | some fv =>
              match sf.type with
              | .sliceT et =>
                -- Collection field: append a zero element and unmarshal
                -- the whole Value into it.
                match fv with
                | .vslice es =>
                  match unmarshalReflectValue env fuel val et (zeroValue env fuel et) with
                  | .error e => .error e
                  | .ok elem' =>
                    unmarshalValuesLoop env fuel rest sfs
                      (.vstruct (fs.set j (.vslice (es ++ [elem'])))) seen
                | _ => .error (.panicked "reflect: not a slice")
              | _ =>
                -- Non-collection field: the selector must be unique.
                if seen.contains key then .error (.occursMoreThanOnce val.Pos key)
                else
                  match unmarshalReflectValue env fuel val sf.type fv with
                  | .error e => .error e
                  | .ok fv' =>
                    unmarshalValuesLoop env fuel rest sfs (.vstruct (fs.set j fv'))
                      (seen ++ [key])
          | _ => .error (.panicked "reflect: not a struct")

/-- `UnmarshalValues` from `gdl.go`: the target must be (a pointer to) a
struct; every error of the loop is wrapped as
`"gdl.UnmarshalValues into %s: %w"` by the deferred handler. -/
def UnmarshalValues (env : Env) (fuel : Nat) (vals : List Value) (t : GoType)
    (rv : GoVal) : Except UErr GoVal :=
  match t with
  | .structT n =>
    match envLookup env n with
    | none => .error (.into t (.panicked "unknown struct type"))
    | some sfs =>
      match unmarshalValuesLoop env fuel vals sfs rv [] with
      | .error e => .error (.into t e)
      | .ok rv' => .ok rv'
  | _ => .error .badTarget

end GdlHead

/-! ### Concrete shapes and inputs used by the theorems -/

namespace Gdl

/-- The `string` Go type. -/
def strT : GoType := .scalarT .string

/-- `type sbool struct { B bool }`. -/
def boolEnv : Env := [("sbool", [⟨"B", "", .scalarT .bool⟩])]

/-- `type s8 struct { N int8 }`. -/
def i8Env : Env := [("s8", [⟨"N", "", .scalarT (.int 8)⟩])]

/-- `type enum struct { Name string; Values []string }` (from the
repository's tests). -/
def enumEnv : Env := [("enum", [⟨"Name", "", strT⟩, ⟨"Values", "", .sliceT strT⟩])]

/-- The `commands`/`command`/`Arg` shapes of `TestUnmarshalValues`, with
`command.Name` tagged `gdl:",id"`. -/
def cmdEnv : Env := [
  ("commands", [⟨"Commands", "", .sliceT (.structT "command")⟩]),
  ("command", [⟨"Name", ",id", strT⟩, ⟨"Args", "", .sliceT (.structT "Arg")⟩]),
  ("Arg", [⟨"Name", "", strT⟩, ⟨"Type", "", strT⟩])]

/-- The zero `commands` record. -/
def cmdZero : GoVal := .vstruct [.vslice []]

/-- The Value "command create arg name string". -/
def vCreate1 : Value := ⟨["command", "create", "arg", "name", "string"], "", 0⟩

/-- The Value "command create arg size int". -/
def vCreate2 : Value := ⟨["command", "create", "arg", "size", "int"], "", 0⟩

/-- The Value "command delete arg size int" (a distinct key). -/
def vDelete : Value := ⟨["command", "delete", "arg", "size", "int"], "", 0⟩

/-- One `command` element named "create" holding the Args
{name string} and {size int}. -/
def mergedCmd : GoVal :=
  .vstruct [.vslice [.vstruct [.vstr "create",
    .vslice [.vstruct [.vstr "name", .vstr "string"],
      .vstruct [.vstr "size", .vstr "int"]]]]]

/-- `type bad struct { Xs []string; Y string }`: a scalar-collection
field that is not last. -/
def badEnv : Env := [("bad", [⟨"Xs", "", .sliceT strT⟩, ⟨"Y", "", strT⟩])]

/-- `type T struct { Kids []T }`: a cyclic shape graph. -/
def cycEnv : Env := [("T", [⟨"Kids", "", .sliceT (.structT "T")⟩])]

/-- A program with no operations, over a nominal struct type. -/
def pEmpty : Program := .mk (.structT "X") none []

/-- Specification-side description of "parsing each word in turn": the
list of parsed values when every word parses at the given scalar kind,
`none` as soon as one fails.  Used to state what the scalar-collection
operation appends. -/
def specParseAll (k : ScalarKind) : List String → Option (List GoVal)
  | [] => some []
  | w :: ws =>
    match setScalar k w with
    | .error _ => none
    | .ok v => (specParseAll k ws).map fun vs => v :: vs

/-- The `S`/`Name`/`Require` shapes of the Head/List
`TestUnmarshalValues` (without the pointer-element `Replaces` field). -/
def sEnv : Env := [
  ("S", [⟨"Name", "", .structT "NameS"⟩, ⟨"Requires", "", .sliceT (.structT "Require")⟩]),
  ("NameS", [⟨"Name", "1", strT⟩]),
  ("Require", [⟨"Mod", "1", strT⟩, ⟨"Version", "2", strT⟩])]

/-- The visible fields of `S`. -/
def sFields : List FieldDef :=
  [⟨"Name", "", .structT "NameS"⟩, ⟨"Requires", "", .sliceT (.structT "Require")⟩]

/-- The record state after decoding "name a" into a zero `S`. -/
def sAfterNameA : List GoVal := [.vstruct [.vstr "a"], .vslice []]

/-- A lexer positioned just after the open paren of "a (\nb c\nd e\n)". -/
def lexC5 : Lexer := newLexer "b c\nd e\n)" "f"

/-- The inner values "b c" and "d e" of that list. -/
def listC5 : List Value := [⟨["b", "c"], "f", 2⟩, ⟨["d", "e"], "f", 3⟩]

/-- The lexer state after parsing that list. -/
def lexC5' : Lexer :=
  { s := [], filename := "f", lineno := 3, ungotten := true, untok := { kind := .eof } }

/-- A lexer over the unterminated raw string "`x". -/
def lexC8 : Lexer := newLexer (String.mk [backtickChar, 'x']) "f"

/-- The error token `lexC8` produces. -/
def tokC8 : Token := { kind := .err, err := some (.untermRaw 1) }

/-- The lexer state after `lexC8` produced its error token. -/
def lexC8' : Lexer :=
  { s := [backtickChar, 'x'], filename := "f", lineno := 1, errtok := tokC8 }

/-- Specification-side description of an acyclic shape graph: some rank
function `μ` on struct names strictly decreases from every struct to the
element shape of each of its record-collection fields.  A cyclic shape
graph (a struct that transitively nests a collection of its own shape)
admits no such rank. -/
def RankOK (env : Env) (μ : String → Nat) : Prop :=
  ∀ nm sfs sf m, envLookup env nm = some sfs → sf ∈ sfs →
    sf.type = .sliceT (.structT m) → μ m < μ nm

end Gdl

/-! ### Helper lemmas -/

/-- `SetInt` truncation is the identity on values that fit the signed
width. -/
theorem wrapSigned_eq_self (bits : Nat) (n : Int) (hb : 0 < bits)
    (h1 : -(2 ^ (bits - 1) : Int) ≤ n) (h2 : n < 2 ^ (bits - 1)) :
    Gdl.wrapSigned bits n = n := by
  unfold Gdl.wrapSigned
  have hbits : bits = (bits - 1) + 1 := (Nat.succ_pred_eq_of_pos hb).symm
  have hm : (2 : Int) ^ bits = 2 * 2 ^ (bits - 1) := by
    conv_lhs => rw [hbits, pow_succ]
    ring
  have hhpos : (0 : Int) < 2 ^ (bits - 1) := by positivity
  have hdiv : (2 * (2 : Int) ^ (bits - 1)) / 2 = 2 ^ (bits - 1) :=
    Int.mul_ediv_cancel_left _ two_ne_zero
  rcases le_or_lt 0 n with hn | hn
  · have hmod : n % (2 * 2 ^ (bits - 1)) = n := Int.emod_eq_of_lt hn (by omega)
    simp only [hm, hmod, hdiv]
    simp [h2]
  · have hmod : n % (2 * 2 ^ (bits - 1)) = n + 2 * 2 ^ (bits - 1) := by
      have hself := Int.add_mul_emod_self_left n (2 * 2 ^ (bits - 1)) 1
      rw [mul_one] at hself
      rw [← hself, Int.emod_eq_of_lt (by omega) (by omega)]
    simp only [hm, hmod, hdiv]
    have hnot : ¬ (n + 2 * 2 ^ (bits - 1) < 2 ^ (bits - 1)) := by omega
    simp only [if_neg hnot]
    ring

/-- `SetInt` truncation always lands in the signed width's range. -/
theorem wrapSigned_range (bits : Nat) (n : Int) (hb : 0 < bits) :
    -(2 ^ (bits - 1) : Int) ≤ Gdl.wrapSigned bits n ∧ Gdl.wrapSigned bits n < 2 ^ (bits - 1) := by
  unfold Gdl.wrapSigned
  have hbits : bits = (bits - 1) + 1 := (Nat.succ_pred_eq_of_pos hb).symm
  have hm : (2 : Int) ^ bits = 2 * 2 ^ (bits - 1) := by
    conv_lhs => rw [hbits, pow_succ]
    ring
  have hhpos : (0 : Int) < 2 ^ (bits - 1) := by positivity
  have hmpos : (0 : Int) < 2 * 2 ^ (bits - 1) := by positivity
  have hr0 : 0 ≤ n % (2 * 2 ^ (bits - 1)) := Int.emod_nonneg n (by positivity)
  have hrlt : n % (2 * 2 ^ (bits - 1)) < 2 * 2 ^ (bits - 1) := Int.emod_lt_of_pos n hmpos
  have hdiv : (2 * (2 : Int) ^ (bits - 1)) / 2 = 2 ^ (bits - 1) :=
    Int.mul_ediv_cancel_left _ two_ne_zero
  simp only [hm, hdiv]
  split <;> omega

/-- `SetUint` truncation is the identity iff the value fits the unsigned
width. -/
theorem wrapUnsigned_eq_self_iff (bits : Nat) (u : Nat) :
    Gdl.wrapUnsigned bits u = u ↔ u < 2 ^ bits := by
  unfold Gdl.wrapUnsigned
  constructor
  · intro h
    rw [← h]
    exact Nat.mod_lt _ (by positivity)
  · intro h
    exact Nat.mod_eq_of_lt h

/-- `scalarKind` on a slice type. -/
theorem scalarKind_sliceT (e : Gdl.GoType) : Gdl.scalarKind (.sliceT e) = none := rfl

/-- `scalarKind` on a struct type. -/
theorem scalarKind_structT (n : String) : Gdl.scalarKind (.structT n) = none := rfl

/-- `scalarKind` on a scalar type. -/
theorem scalarKind_scalarT (k : Gdl.ScalarKind) : Gdl.scalarKind (.scalarT k) = some k := rfl

/-! ### Claim C3 -/

/-- C3: the claim states that boolean scalar decoding accepts exactly the
literals "true" and "false".  The code's `setScalarFunc` calls
`strconv.ParseBool`, which also accepts "True", "TRUE", "t", "1", "0" and
the other Go spellings, so those decode successfully — contradicting the
repository's README ("Only \"true\" and \"false\" are bools; other
strings acceptable to strconv.ParseBool, like \"t\" and \"FALSE\", are
not").  This theorem evaluates the code at the failing inputs, down
through the full word-list decoder for "True". -/
theorem C3_bool_decode_accepts_alternate_spellings :
    Gdl.setScalar .bool "True" = .ok (.vbool true) ∧
    Gdl.setScalar .bool "TRUE" = .ok (.vbool true) ∧
    Gdl.setScalar .bool "t" = .ok (.vbool true) ∧
    Gdl.setScalar .bool "1" = .ok (.vbool true) ∧
    Gdl.setScalar .bool "0" = .ok (.vbool false) ∧
    Gdl.setScalar .bool "true" = .ok (.vbool true) ∧
    Gdl.setScalar .bool "false" = .ok (.vbool false) ∧
    Gdl.setScalar .bool "yes" = .error ⟨"ParseBool", "yes", .synErr⟩ ∧
    Gdl.setScalarFunc (.scalarT .bool) = some (Gdl.setScalar .bool) ∧
    (Gdl.UnmarshalValues Gdl.boolEnv 10 [] [{ Words := ["True"] }] (.structT "sbool")
      (.vstruct [.vbool false])).1 = .ok (.vstruct [.vbool true]) :=
  ⟨rfl, rfl, rfl, rfl, rfl, rfl, rfl, rfl, rfl, rfl⟩

/-! ### Claim C4 -/

/-- C4 counterexample: the claim states that a base-10 literal outside
the field's width is a decode error ("300" into an 8-bit signed field
fails).  The code parses at bit size 64 and `reflect.Value.SetInt`
truncates, so "300" decodes into an `int8` field as the wrapped value
44, both at the conversion function and through the full decoder. -/
theorem C4_counterexample_int8_300_wraps :
    Gdl.setScalar (.int 8) "300" = .ok (.vint 8 44) ∧
    (Gdl.UnmarshalValues Gdl.i8Env 10 [] [{ Words := ["300"] }] (.structT "s8")
      (.vstruct [.vint 8 0])).1 = .ok (.vstruct [.vint 8 44]) :=
  ⟨rfl, rfl⟩

/-- C4 (amended): integer scalar decoding base-10 parses the word with
64-bit range validation; a malformed word or a value outside the
int64/uint64 range is a decode error (the parse error propagates
unchanged), and an in-range value is stored truncated to the field's
width; the stored value equals the parsed value exactly (iff) when the
parsed value fits the field's width.  Stated for both signed and
unsigned fields at every Go integer width. -/
theorem C4_int_decode_base10_int64_range_then_truncate
    (bits : Nat) (w : String)
    (hbits : bits = 8 ∨ bits = 16 ∨ bits = 32 ∨ bits = 64) :
    (∀ n, Gdl.parseInt64 w = .ok n →
      Gdl.setScalar (.int bits) w = .ok (.vint bits (Gdl.wrapSigned bits n)))
    ∧ (∀ n, Gdl.parseInt64 w = .ok n →
        (Gdl.setScalar (.int bits) w = .ok (.vint bits n) ↔
          -(2 ^ (bits - 1) : Int) ≤ n ∧ n < 2 ^ (bits - 1)))
    ∧ (∀ e, Gdl.parseInt64 w = .error e → Gdl.setScalar (.int bits) w = .error e)
    ∧ (∀ u, Gdl.parseUint64 w = .ok u →
      Gdl.setScalar (.uint bits) w = .ok (.vuint bits (Gdl.wrapUnsigned bits u)))
    ∧ (∀ u, Gdl.parseUint64 w = .ok u →
        (Gdl.setScalar (.uint bits) w = .ok (.vuint bits u) ↔ u < 2 ^ bits))
    ∧ (∀ e, Gdl.parseUint64 w = .error e → Gdl.setScalar (.uint bits) w = .error e) := by
  have hb : 0 < bits := by rcases hbits with h | h | h | h <;> omega
  refine ⟨?_, ?_, ?_, ?_, ?_, ?_⟩
  · intro n h
    simp [Gdl.setScalar, h, Except.map]
  · intro n h
    constructor
    · intro hset
      have h1 : Gdl.setScalar (.int bits) w = .ok (.vint bits (Gdl.wrapSigned bits n)) := by
        simp [Gdl.setScalar, h, Except.map]
      have h2 : Gdl.wrapSigned bits n = n := by
        have := h1.symm.trans hset
        simpa using this
      have h3 := wrapSigned_range bits n hb
      rw [h2] at h3
      exact h3
    · intro hrange
      simp [Gdl.setScalar, h, Except.map, wrapSigned_eq_self bits n hb hrange.1 hrange.2]
  · intro e h
    simp [Gdl.setScalar, h, Except.map]
  · intro u h
    simp [Gdl.setScalar, h, Except.map]
  · intro u h
    constructor
    · intro hset
      have h1 : Gdl.setScalar (.uint bits) w = .ok (.vuint bits (Gdl.wrapUnsigned bits u)) := by
        simp [Gdl.setScalar, h, Except.map]
      have h2 : Gdl.wrapUnsigned bits u = u := by
        have := h1.symm.trans hset
        simpa using this
      exact (wrapUnsigned_eq_self_iff bits u).mp h2
    · intro hrange
      simp [Gdl.setScalar, h, Except.map, (wrapUnsigned_eq_self_iff bits u).mpr hrange]
  · intro e h
    simp [Gdl.setScalar, h, Except.map]

/-- C4 witness: "-23" decodes into an 8-bit signed field as exactly -23,
and "23" into an 8-bit unsigned field as exactly 23, by the exactness
biconditionals. -/
theorem C4_int_decode_witness :
    Gdl.setScalar (.int 8) "-23" = .ok (.vint 8 (-23)) ∧
    Gdl.setScalar (.uint 8) "23" = .ok (.vuint 8 23) :=
  ⟨((C4_int_decode_base10_int64_range_then_truncate 8 "-23" (Or.inl rfl)).2.1
      (-23) rfl).mpr (by decide),
   ((C4_int_decode_base10_int64_range_then_truncate 8 "23" (Or.inl rfl)).2.2.2.2.1
      23 rfl).mpr (by decide)⟩

/-! ### Claims C8 and C10 (lexer) -/

/-- The scan loop never produces an error-kinded token through its `res`
outcome: error tokens arise only through the `error` method (the `fail`
outcome). -/
theorem nextLoop_res_not_err : ∀ (fuel : Nat) (s : List Char) (ln : Nat) (t : Gdl.Token)
    (s' : List Char) (ln' : Nat),
    Gdl.nextLoop fuel s ln = .res t s' ln' → t.kind ≠ .err := by
  intro fuel
  induction fuel with
  | zero =>
    intro s ln t s' ln' h
    simp [Gdl.nextLoop] at h
  | succ n ih =>
    intro s ln t s' ln' h
    simp only [Gdl.nextLoop] at h
    repeat' split at h
    all_goals
      first
      | (exact ih _ _ _ _ _ h)
      | (injection h with h1 h2 h3; subst h1; simp)
      | simp at h

/-- C8: lexical errors are terminal and sticky.  If `next` (called with
no pending pushback) returns an error token, the resulting state is a
fixed point: every subsequent `next` returns the identical error token
with the state unchanged, and the pushback slot stays empty, so the
property persists for all later calls. -/
theorem C8_lexer_errors_sticky (l l' : Gdl.Lexer) (t : Gdl.Token)
    (hug : l.ungotten = false)
    (h : Gdl.next l = .ok (t, l'))
    (hk : t.kind = .err) :
    Gdl.next l' = .ok (t, l') ∧ l'.ungotten = false := by
  unfold Gdl.next at h
  rw [hug] at h
  simp only [Bool.false_eq_true, if_false] at h
  by_cases he : l.errtok.kind = .err
  · rw [if_pos he] at h
    simp only [Gdl.Panics.ok.injEq, Prod.mk.injEq] at h
    obtain ⟨h1, h2⟩ := h
    subst h1 h2
    refine ⟨?_, hug⟩
    unfold Gdl.next
    rw [hug]
    simp [he]
  · rw [if_neg he] at h
    cases hnl : Gdl.nextLoop (l.s.length + 1) l.s l.lineno with
    | res t0 s0 ln0 =>
      rw [hnl] at h
      simp only [Gdl.Panics.ok.injEq, Prod.mk.injEq] at h
      obtain ⟨h1, h2⟩ := h
      subst h1
      exact absurd hk (nextLoop_res_not_err _ _ _ _ _ _ hnl)
    | fail e s0 ln0 =>
      rw [hnl] at h
      simp only [Gdl.lexError, he, if_false, Gdl.Panics.ok.injEq, Prod.mk.injEq] at h
      obtain ⟨h1, h2⟩ := h
      subst h1 h2
      refine ⟨?_, rfl⟩
      simp [Gdl.next, he]
    | panicked m => rw [hnl] at h; exact absurd h (by simp)
    | fuel => rw [hnl] at h; exact absurd h (by simp)

/-- C8 witness: the lexer that just failed on the unterminated raw
string "`x" keeps returning the identical error token. -/
theorem C8_lexer_errors_sticky_witness :
    Gdl.next Gdl.lexC8' = .ok (Gdl.tokC8, Gdl.lexC8') ∧ Gdl.lexC8'.ungotten = false :=
  C8_lexer_errors_sticky Gdl.lexC8 Gdl.lexC8' Gdl.tokC8 rfl rfl rfl

/-- C10: when a token begins with a backslash and the next character
after skipping horizontal whitespace is neither a newline nor end of
input, the scanner falls out of every case of its dispatch and reaches
`panic("unreachable")`; in particular `next` on the input "\x" panics,
and the public `Parse` entry point crashes on it instead of reporting a
positioned error. -/
theorem C10_backslash_nonnewline_panics
    (fuel ln : Nat) (s rest dtail : List Char) (d : Char)
    (h1 : Gdl.skipHorizontalSpace s = '\\' :: rest)
    (h2 : Gdl.skipHorizontalSpace rest = d :: dtail)
    (h3 : d ≠ '\n') :
    Gdl.nextLoop (fuel + 1) s ln = .panicked "unreachable"
    ∧ Gdl.next (Gdl.newLexer "\\x" "f") = .panicked "unreachable"
    ∧ Gdl.Parse "\\x" = .panicked "unreachable" := by
  refine ⟨?_, rfl, rfl⟩
  simp only [Gdl.nextLoop, h1, h2]
  simp [h3]

/-- C10 witness: the scanner panics on the concrete input "\x". -/
theorem C10_backslash_nonnewline_panics_witness :
    Gdl.nextLoop 3 ['\\', 'x'] 1 = .panicked "unreachable" :=
  (C10_backslash_nonnewline_panics 2 1 ['\\', 'x'] ['x'] [] 'x' rfl rfl (by decide)).1

/-! ### Claim C2 -/

/-- C2: executor dispatch order and failure.  The run loop ends exactly
when no words remain (first conjunct); at offset `i` = words already
consumed, `findOp` consults the exact offset first, then the word at the
cursor with its first letter lower-cased, then that word's simple
plural, and yields nothing only when all three miss; a miss makes `run`
fail with the decode error citing the word, its offset, the target type
and the full original word list; a by-name match removes the selector
word before the operation runs, while a by-offset match passes all
remaining words; and the plural is "es" after a final 's' or 'x',
otherwise "s". -/
theorem C2_run_dispatch_order (env : Gdl.Env) (fuel : Nat) (p : Gdl.Program)
    (rv : Gdl.GoVal) (words : List String) (w : String) (rest : List String) :
    (Gdl.runLoop env (fuel + 1) p rv words [] = .ok rv)
    ∧ (∀ i op, Gdl.opsLookup p.ops (.idx i) = some op →
        Gdl.findOp p i w = some (op, true))
    ∧ (∀ i op, Gdl.opsLookup p.ops (.idx i) = none →
        Gdl.opsLookup p.ops (.word (Gdl.lowerFirst w)) = some op →
        Gdl.findOp p i w = some (op, false))
    ∧ (∀ i op, Gdl.opsLookup p.ops (.idx i) = none →
        Gdl.opsLookup p.ops (.word (Gdl.lowerFirst w)) = none →
        Gdl.opsLookup p.ops (.word (Gdl.plural (Gdl.lowerFirst w))) = some op →
        Gdl.findOp p i w = some (op, false))
    ∧ (∀ i, Gdl.opsLookup p.ops (.idx i) = none →
        Gdl.opsLookup p.ops (.word (Gdl.lowerFirst w)) = none →
        Gdl.opsLookup p.ops (.word (Gdl.plural (Gdl.lowerFirst w))) = none →
        Gdl.findOp p i w = none)
    ∧ (Gdl.findOp p (words.length - (w :: rest).length) w = none →
        Gdl.runLoop env (fuel + 1) p rv words (w :: rest) =
          .error (.noOp w (words.length - (w :: rest).length) p.t words))
    ∧ (∀ op, Gdl.findOp p (words.length - (w :: rest).length) w = some (op, false) →
        Gdl.runLoop env (fuel + 1) p rv words (w :: rest) =
          match Gdl.applyOp env fuel op rv rest with
          | .error e => .error e
          | .ok (rv', ws') => Gdl.runLoop env fuel p rv' words ws')
    ∧ (∀ op, Gdl.findOp p (words.length - (w :: rest).length) w = some (op, true) →
        Gdl.runLoop env (fuel + 1) p rv words (w :: rest) =
          match Gdl.applyOp env fuel op rv (w :: rest) with
          | .error e => .error e
          | .ok (rv', ws') => Gdl.runLoop env fuel p rv' words ws')
    ∧ (∀ (s : String) (c : Char), s.toList.getLast? = some c →
        Gdl.plural s = if c = 's' ∨ c = 'x' then s ++ "es" else s ++ "s") := by
  refine ⟨by simp [Gdl.runLoop], ?_, ?_, ?_, ?_, ?_, ?_, ?_, ?_⟩
  · intro i op h
    simp [Gdl.findOp, h]
  · intro i op h1 h2
    simp [Gdl.findOp, h1, h2]
  · intro i op h1 h2 h3
    simp [Gdl.findOp, h1, h2, h3]
  · intro i h1 h2 h3
    simp [Gdl.findOp, h1, h2, h3]
  · intro h
    simp only [Gdl.runLoop, h]
  · intro op h
    simp only [Gdl.runLoop, h]
    simp
  · intro op h
    simp only [Gdl.runLoop, h]
    simp
  · intro s c h
    have hnil : s.toList ≠ [] := by
      intro hh
      rw [hh] at h
      simp at h
    have hlen : ¬ (s.length = 0) := by
      intro hh
      exact hnil (List.length_eq_zero.mp hh)
    simp only [Gdl.plural, hlen, if_false, h]
    by_cases hs : c = 's'
    · subst hs; simp
    · by_cases hx : c = 'x'
      · subst hx; simp
      · simp [hs, hx]

/-- C2 witness: running a program with no operations on one word fails
with the decode error naming the word, offset 0, the target type and the
word list. -/
theorem C2_run_dispatch_order_witness :
    Gdl.runLoop [] 5 Gdl.pEmpty (.vstruct []) ["w"] ["w"] =
      .error (.noOp "w" 0 (.structT "X") ["w"]) :=
  (C2_run_dispatch_order [] 4 Gdl.pEmpty (.vstruct []) ["w"] "w" []).2.2.2.2.2.1 rfl

/-! ### Claim C9 -/

/-- Compiling the self-referential shape `type T struct { Kids []T }`
exhausts any amount of fuel: the recursion into the element shape never
bottoms out, because the program cache is only written after a compile
returns. -/
theorem compile_cyclic_outOfFuel :
    ∀ fuel, Gdl.compile Gdl.cycEnv fuel [] (.structT "T") = .error .outOfFuel := by
  intro fuel
  induction fuel using Nat.twoStepInduction with
  | zero => rfl
  | one => rfl
  | more n ih1 ih2 =>
    have henv : Gdl.envLookup Gdl.cycEnv "T" =
        some [⟨"Kids", "", .sliceT (.structT "T")⟩] := rfl
    simp [Gdl.compile, Gdl.compileFields, henv, Gdl.idIndex,
      Gdl.scalarKind, Gdl.cacheLookup, ih1]

/-- C9 counterexample: the claim says Program compilation terminates
even for a type that nests a collection of its own type.  It does not:
no amount of fuel lets `programFor` produce a program for
`type T struct { Kids []T }` from an empty cache — the compilation
recurses unboundedly. -/
theorem C9_counterexample_cyclic_compile :
    ¬ ∃ fuel p c, Gdl.programFor Gdl.cycEnv fuel [] (.structT "T") = .ok (p, c) := by
  rintro ⟨fuel, p, c, h⟩
  rw [Gdl.programFor] at h
  simp [Gdl.cacheLookup, compile_cyclic_outOfFuel fuel] at h

/-- `idIndex` inspects only the first field; it never exhausts fuel. -/
theorem idIndex_ne_outOfFuel (sfs : List Gdl.FieldDef) :
    Gdl.idIndex sfs ≠ .error .outOfFuel := by
  cases sfs with
  | nil => simp [Gdl.idIndex]
  | cons f0 rest =>
    simp only [Gdl.idIndex]
    split_ifs <;> simp

/-- The field loop of `compile` does not exhaust a fuel budget covering
one unit per remaining field plus the budget `r * (K + 2)` of each
nested `compile` call, provided every nested record-collection element
shape has rank below `r` and ranks below `r` already guarantee nested
compiles within that budget. -/
theorem compileFields_acyclic_not_outOfFuel
    (env : Gdl.Env) (μ : String → Nat) (K : Nat) (r : Nat)
    (hcomp : ∀ name cache fuel, μ name < r → r * (K + 2) ≤ fuel →
      Gdl.compile env fuel cache (.structT name) ≠ .error .outOfFuel) :
    ∀ (flds : List Gdl.FieldDef) (t : Gdl.GoType) (total off : Nat)
      (cache : Gdl.Cache) (i : Nat) (ops : List (Gdl.OpKey × Gdl.Op)) (fuel : Nat),
      (∀ sf ∈ flds, ∀ m, sf.type = .sliceT (.structT m) → μ m < r) →
      flds.length + 1 + r * (K + 2) ≤ fuel →
      Gdl.compileFields env fuel cache t total off flds i ops ≠ .error .outOfFuel := by
  intro flds
  induction flds with
  | nil =>
    intro t total off cache i ops fuel hmem hfuel
    cases fuel with
    | zero => simp at hfuel
    | succ g => simp [Gdl.compileFields]
  | cons sf rest ih =>
    intro t total off cache i ops fuel hmem hfuel
    cases fuel with
    | zero => simp at hfuel
    | succ g =>
      have hg : rest.length + 1 + r * (K + 2) ≤ g := by
        simp at hfuel; omega
      have hmem' : ∀ x ∈ rest, ∀ m, x.type = .sliceT (.structT m) → μ m < r :=
        fun x hx => hmem x (List.mem_cons_of_mem _ hx)
      obtain ⟨k, hsk⟩ | hsk :
          (∃ k, Gdl.scalarKind sf.type = some k) ∨ Gdl.scalarKind sf.type = none := by
        cases h : Gdl.scalarKind sf.type
        · exact Or.inr rfl
        · exact Or.inl ⟨_, rfl⟩
      · simp only [Gdl.compileFields, hsk]
        exact ih t total off cache (i + 1) _ g hmem' hg
      · obtain ⟨k2, hty⟩ | ⟨et, hty⟩ | ⟨n, hty⟩ :
            (∃ k2, sf.type = .scalarT k2) ∨ (∃ et, sf.type = .sliceT et) ∨
              (∃ n, sf.type = .structT n) := by
          cases h : sf.type
          · exact Or.inl ⟨_, rfl⟩
          · exact Or.inr (Or.inl ⟨_, rfl⟩)
          · exact Or.inr (Or.inr ⟨_, rfl⟩)
        · rw [hty, scalarKind_scalarT] at hsk
          cases hsk
        · obtain ⟨ke, hek⟩ | hek :
              (∃ ke, Gdl.scalarKind et = some ke) ∨ Gdl.scalarKind et = none := by
            cases h : Gdl.scalarKind et
            · exact Or.inr rfl
            · exact Or.inl ⟨_, rfl⟩
          · simp only [Gdl.compileFields, hty, scalarKind_sliceT, hek]
            by_cases hit : i + 1 ≠ total
            · simp only [if_pos hit]
              simp
            · simp only [if_neg hit]
              exact ih t total off cache (i + 1) _ g hmem' hg
          · obtain ⟨sub, hcl⟩ | hcl :
                (∃ sub, Gdl.cacheLookup cache et = some sub) ∨
                  Gdl.cacheLookup cache et = none := by
              cases h : Gdl.cacheLookup cache et
              · exact Or.inr rfl
              · exact Or.inl ⟨_, rfl⟩
            · simp only [Gdl.compileFields, hty, scalarKind_sliceT, hek, hcl]
              exact ih t total off cache (i + 1) _ g hmem' hg
            · obtain ⟨e, hc⟩ | ⟨sub, c', hc⟩ :
                  (∃ e, Gdl.compile env g cache et = .error e) ∨
                    (∃ sub c', Gdl.compile env g cache et = .ok (sub, c')) := by
                cases h : Gdl.compile env g cache et
                · exact Or.inl ⟨_, rfl⟩
                · exact Or.inr ⟨_, _, rfl⟩
              · obtain ⟨ke2, het⟩ | ⟨e2, het⟩ | ⟨m, het⟩ :
                    (∃ ke2, et = .scalarT ke2) ∨ (∃ e2, et = .sliceT e2) ∨
                      (∃ m, et = .structT m) := by
                  cases h : et
                  · exact Or.inl ⟨_, rfl⟩
                  · exact Or.inr (Or.inl ⟨_, rfl⟩)
                  · exact Or.inr (Or.inr ⟨_, rfl⟩)
                · rw [het, scalarKind_scalarT] at hek
                  cases hek
                · subst het
                  cases g with
                  | zero => omega
                  | succ g2 =>
                    simp only [Gdl.compile] at hc
                    simp only [Except.error.injEq] at hc
                    simp only [Gdl.compileFields, hty, scalarKind_sliceT, hek, hcl,
                      Gdl.compile, ← hc]
                    simp
                · subst het
                  have hμ : μ m < r := hmem sf (List.mem_cons_self _ _) m hty
                  have hKf : r * (K + 2) ≤ g := by omega
                  simp only [Gdl.compileFields, hty, scalarKind_sliceT, hek, hcl, hc]
                  intro hgoal
                  simp only [Except.error.injEq] at hgoal
                  exact hcomp m cache g hμ hKf (by rw [hc, hgoal])
              · simp only [Gdl.compileFields, hty, scalarKind_sliceT, hek, hcl, hc]
                exact ih t total off ((et, sub) :: c') (i + 1) _ g hmem' hg
        · simp only [Gdl.compileFields, hty, scalarKind_structT]
          exact ih t total off cache (i + 1) ops g hmem' hg

/-- Compilation terminates on every acyclic shape graph: whenever a rank
function witnesses acyclicity (`RankOK`) and `K` bounds every struct's
field count, compiling any struct of rank below `r` does not exhaust a
fuel budget of `r * (K + 2)`, whatever the cache's contents.  Proof by
induction on the rank bound, through the field loop. -/
theorem compile_acyclic_not_outOfFuel
    (env : Gdl.Env) (μ : String → Nat) (K : Nat)
    (hrank : Gdl.RankOK env μ)
    (hK : ∀ n sfs, Gdl.envLookup env n = some sfs → sfs.length ≤ K) :
    ∀ (r : Nat) (name : String) (cache : Gdl.Cache) (fuel : Nat),
      μ name < r → r * (K + 2) ≤ fuel →
      Gdl.compile env fuel cache (.structT name) ≠ .error .outOfFuel := by
  intro r
  induction r with
  | zero => intro name cache fuel hμ; omega
  | succ r ih =>
    intro name cache fuel hμ hfuel
    cases fuel with
    | zero =>
      have h2 : (r + 1) * (K + 2) = r * (K + 2) + K + 2 := by ring
      omega
    | succ f =>
      have hf : r * (K + 2) + K + 1 ≤ f := by
        have h2 : (r + 1) * (K + 2) = r * (K + 2) + K + 2 := by ring
        omega
      obtain ⟨sfs0, henv⟩ | henv :
          (∃ sfs0, Gdl.envLookup env name = some sfs0) ∨
            Gdl.envLookup env name = none := by
        cases h : Gdl.envLookup env name
        · exact Or.inr rfl
        · exact Or.inl ⟨_, rfl⟩
      · have hlen0 : sfs0.length ≤ K := hK name sfs0 henv
        obtain ⟨e, hid⟩ | ⟨ii, hid⟩ :
            (∃ e, Gdl.idIndex sfs0 = .error e) ∨
              (∃ ii, Gdl.idIndex sfs0 = .ok ii) := by
          cases h : Gdl.idIndex sfs0
          · exact Or.inl ⟨_, rfl⟩
          · exact Or.inr ⟨_, rfl⟩
        · simp only [Gdl.compile, henv, hid]
          intro hgoal
          simp only [Except.error.injEq] at hgoal
          exact idIndex_ne_outOfFuel sfs0 (by rw [hid, hgoal])
        · have hsub : (if ii.isSome then sfs0.tail else sfs0) ⊆ sfs0 := by
            by_cases hii : ii.isSome
            · rw [if_pos hii]
              exact List.tail_subset sfs0
            · rw [if_neg hii]
              exact fun x hx => hx
          have hmemr : ∀ sf ∈ (if ii.isSome then sfs0.tail else sfs0), ∀ m,
              sf.type = .sliceT (.structT m) → μ m < r := by
            intro sf hsf m htype
            have hlt := hrank name sfs0 sf m henv (hsub hsf) htype
            omega
          have hlen : (if ii.isSome then sfs0.tail else sfs0).length ≤ K := by
            by_cases hii : ii.isSome
            · rw [if_pos hii]
              have hl := List.length_tail sfs0
              omega
            · rw [if_neg hii]; exact hlen0
          have hcf := compileFields_acyclic_not_outOfFuel env μ K r ih
            (if ii.isSome then sfs0.tail else sfs0) (.structT name)
            (if ii.isSome then sfs0.tail else sfs0).length
            (if ii.isSome then 1 else 0) cache 0 [] f hmemr (by omega)
          obtain ⟨e, hcfv⟩ | ⟨ops, cache', hcfv⟩ :
              (∃ e, Gdl.compileFields env f cache (.structT name)
                (if ii.isSome then sfs0.tail else sfs0).length
                (if ii.isSome then 1 else 0)
                (if ii.isSome then sfs0.tail else sfs0) 0 [] = .error e) ∨
              (∃ ops cache', Gdl.compileFields env f cache (.structT name)
                (if ii.isSome then sfs0.tail else sfs0).length
                (if ii.isSome then 1 else 0)
                (if ii.isSome then sfs0.tail else sfs0) 0 [] = .ok (ops, cache')) := by
            cases h : Gdl.compileFields env f cache (.structT name)
                (if ii.isSome then sfs0.tail else sfs0).length
                (if ii.isSome then 1 else 0)
                (if ii.isSome then sfs0.tail else sfs0) 0 []
            · exact Or.inl ⟨_, rfl⟩
            · exact Or.inr ⟨_, _, rfl⟩
          · simp only [Gdl.compile, henv, hid, hcfv]
            intro hgoal
            simp only [Except.error.injEq] at hgoal
            exact hcf (by rw [hcfv, hgoal])
          · simp only [Gdl.compile, henv, hid, hcfv]
            simp
      · simp only [Gdl.compile, henv]
        simp

/-- C9 (amended): Program compilation terminates on every acyclic shape
graph and diverges on cyclic ones.  Conjuncts: (1)–(2) compiling
`type T struct { Kids []T }` exhausts every fuel bound, both for
`compile` and through `programFor` — the program cache is written only
after a compile returns, so it cannot break the cycle; (3) whenever a
rank function on struct names strictly decreases from every struct to
the element shape of each of its record-collection fields (an acyclic
shape graph, `RankOK`) and `K` bounds every struct's field count,
compiling any struct of rank below `r` never exhausts a fuel budget of
`r * (K + 2)` — compilation terminates; (4)–(5) the repository's test
shapes compile at a concrete budget. -/
theorem C9_amended_compile_acyclic_terminates_cyclic_diverges :
    (∀ fuel, Gdl.compile Gdl.cycEnv fuel [] (.structT "T") = .error .outOfFuel)
    ∧ (∀ fuel, Gdl.programFor Gdl.cycEnv fuel [] (.structT "T") = .error .outOfFuel)
    ∧ (∀ (env : Gdl.Env) (μ : String → Nat) (K : Nat),
        Gdl.RankOK env μ →
        (∀ n sfs, Gdl.envLookup env n = some sfs → sfs.length ≤ K) →
        ∀ (r : Nat) (name : String) (cache : Gdl.Cache) (fuel : Nat),
          μ name < r → r * (K + 2) ≤ fuel →
          Gdl.compile env fuel cache (.structT name) ≠ .error .outOfFuel)
    ∧ (match Gdl.compile Gdl.cmdEnv 20 [] (.structT "commands") with
        | .ok _ => true
        | .error _ => false) = true
    ∧ (match Gdl.compile Gdl.enumEnv 20 [] (.structT "enum") with
        | .ok _ => true
        | .error _ => false) = true := by
  refine ⟨compile_cyclic_outOfFuel, ?_, ?_, rfl, rfl⟩
  · intro fuel
    rw [Gdl.programFor]
    simp [Gdl.cacheLookup, compile_cyclic_outOfFuel fuel]
  · exact compile_acyclic_not_outOfFuel

/-- C9 witness: the acyclic-termination conjunct applied to the
`commands`/`command`/`Arg` shape graph of the repository's tests, with
the rank commands ↦ 2, command ↦ 1, Arg ↦ 0, field-count bound 2, rank
bound 3 and fuel 20. -/
theorem C9_amended_termination_witness :
    Gdl.compile Gdl.cmdEnv 20 [] (.structT "commands") ≠ .error .outOfFuel :=
  C9_amended_compile_acyclic_terminates_cyclic_diverges.2.2.1 Gdl.cmdEnv
    (fun n => if n = "command" then 1 else if n = "Arg" then 0 else 2) 2
    (by
      intro nm sfs sf m henv hmem htype
      simp only [Gdl.cmdEnv, Gdl.envLookup] at henv
      split at henv
      · rename_i hnm
        subst hnm
        injection henv with h2
        subst h2
        simp only [List.mem_singleton] at hmem
        subst hmem
        simp at htype
        subst htype
        decide
      · split at henv
        · rename_i hnm
          subst hnm
          injection henv with h2
          subst h2
          simp only [List.mem_cons, List.mem_singleton] at hmem
          rcases hmem with rfl | rfl | h
          · simp [Gdl.strT] at htype
          · simp at htype
            subst htype
            decide
          · cases h
        · split at henv
          · rename_i hnm
            subst hnm
            injection henv with h2
            subst h2
            simp only [List.mem_cons, List.mem_singleton] at hmem
            rcases hmem with rfl | rfl | h
            · simp [Gdl.strT] at htype
            · simp [Gdl.strT] at htype
            · cases h
          · simp at henv)
    (by
      intro n sfs h
      simp only [Gdl.cmdEnv, Gdl.envLookup] at h
      split at h
      · injection h with h2
        subst h2
        decide
      · split at h
        · injection h with h2
          subst h2
          decide
        · split at h
          · injection h with h2
            subst h2
            decide
          · simp at h)
    3 "commands" [] 20 (by decide) (by decide)

/-! ### Claim C6 -/

/-- Looking up the key just written into a Go map finds the new value. -/
theorem opsLookup_insert_self (m : List (Gdl.OpKey × Gdl.Op)) (key : Gdl.OpKey) (v : Gdl.Op) :
    Gdl.opsLookup (Gdl.opsInsert m key v) key = some v := by
  induction m with
  | nil => simp [Gdl.opsInsert, Gdl.opsLookup]
  | cons kv rest ih =>
    obtain ⟨k', v'⟩ := kv
    by_cases hk : k' = key
    · simp [Gdl.opsInsert, Gdl.opsLookup, hk]
    · simp [Gdl.opsInsert, Gdl.opsLookup, hk, ih]

/-- When every word parses, the scalar-collection loop appends exactly
the parsed values, in order. -/
theorem appendParsed_all_ok (k : Gdl.ScalarKind) :
    ∀ (words : List String) (es vals : List Gdl.GoVal),
    Gdl.specParseAll k words = some vals →
    Gdl.appendParsed k es words = .ok (es ++ vals) := by
  intro words
  induction words with
  | nil =>
    intro es vals h
    simp [Gdl.specParseAll] at h
    simp [Gdl.appendParsed, ← h]
  | cons w ws ih =>
    intro es vals h
    simp only [Gdl.specParseAll] at h
    cases hsw : Gdl.setScalar k w with
    | error e => simp [hsw] at h
    | ok v =>
      rw [hsw] at h
      cases hm : Gdl.specParseAll k ws with
      | none => simp [hm] at h
      | some vals' =>
        rw [hm] at h
        simp only [Option.map_some] at h
        obtain rfl : v :: vals' = vals := by simpa using h
        simp only [Gdl.appendParsed, hsw]
        rw [ih (es ++ [v]) vals' hm]
        simp

/-- The field loop of `compile` can never succeed while a
scalar-collection field with later fields remains in the list. -/
theorem compileFields_scalar_slice_not_last
    (env : Gdl.Env) (t : Gdl.GoType) (total off : Nat) (sf : Gdl.FieldDef)
    (et : Gdl.GoType) (k : Gdl.ScalarKind) (post : List Gdl.FieldDef)
    (hsf : sf.type = .sliceT et) (hk : Gdl.scalarKind et = some k) (hpost : post ≠ []) :
    ∀ (pre : List Gdl.FieldDef) (fuel : Nat) (cache : Gdl.Cache) (i : Nat)
      (ops : List (Gdl.OpKey × Gdl.Op)),
      total = i + (pre ++ sf :: post).length →
      ∃ e, Gdl.compileFields env fuel cache t total off (pre ++ sf :: post) i ops = .error e := by
  intro pre
  induction pre with
  | nil =>
    intro fuel cache i ops htot
    cases fuel with
    | zero => exact ⟨_, rfl⟩
    | succ g =>
      have hne : i + 1 ≠ total := by
        cases post with
        | nil => exact absurd rfl hpost
        | cons q qs => simp at htot; omega
      simp only [List.nil_append, Gdl.compileFields, hsf, scalarKind_sliceT, hk]
      rw [if_pos hne]
      exact ⟨_, rfl⟩
  | cons f pre' ih =>
    intro fuel cache i ops htot
    have htot' : total = (i + 1) + (pre' ++ sf :: post).length := by
      simp at htot ⊢; omega
    cases fuel with
    | zero => exact ⟨_, rfl⟩
    | succ g =>
      rcases hft : f.type with k2 | e2 | n2
      · simp only [List.cons_append, Gdl.compileFields, hft, scalarKind_scalarT]
        exact ih g _ (i + 1) _ htot'
      · rcases hk2 : Gdl.scalarKind e2 with _ | k2
        · simp only [List.cons_append, Gdl.compileFields, hft, scalarKind_sliceT, hk2]
          rcases hcl : Gdl.cacheLookup cache e2 with _ | sub
          · rcases hcc : Gdl.compile env g cache e2 with e' | pc
            · exact ⟨e', by simp⟩
            · obtain ⟨sub, c'⟩ := pc
              exact ih g _ (i + 1) _ htot'
          · exact ih g _ (i + 1) _ htot'
        · simp only [List.cons_append, Gdl.compileFields, hft, scalarKind_sliceT, hk2]
          by_cases hlast : i + 1 ≠ total
          · rw [if_pos hlast]
            exact ⟨_, rfl⟩
          · rw [if_neg hlast]
            exact ih g _ (i + 1) _ htot'
      · simp only [List.cons_append, Gdl.compileFields, hft, scalarKind_structT]
        exact ih g _ (i + 1) _ htot'

/-- When the scalar-collection field is last and compilation succeeds,
the operation registered under its index key survives into the final
operation map. -/
theorem compileFields_scalar_slice_last_lookup
    (env : Gdl.Env) (t : Gdl.GoType) (total off : Nat) (sf : Gdl.FieldDef)
    (et : Gdl.GoType) (k : Gdl.ScalarKind)
    (hsf : sf.type = .sliceT et) (hk : Gdl.scalarKind et = some k) :
    ∀ (pre : List Gdl.FieldDef) (fuel : Nat) (cache : Gdl.Cache) (i : Nat)
      (ops ops' : List (Gdl.OpKey × Gdl.Op)) (c' : Gdl.Cache),
      total = i + (pre ++ [sf]).length →
      Gdl.compileFields env fuel cache t total off (pre ++ [sf]) i ops = .ok (ops', c') →
      Gdl.opsLookup ops' (.idx (total - 1)) = some (.opScalarSlice (off + (total - 1)) k) := by
  intro pre
  induction pre with
  | nil =>
    intro fuel cache i ops ops' c' htot h
    cases fuel with
    | zero => exact absurd h (by simp [Gdl.compileFields])
    | succ g =>
      have hi : i = total - 1 := by simp at htot; omega
      simp only [List.nil_append, Gdl.compileFields, hsf, scalarKind_sliceT, hk] at h
      have hlast : ¬ (i + 1 ≠ total) := by simp at htot; omega
      rw [if_neg hlast] at h
      cases g with
      | zero => exact absurd h (by simp [Gdl.compileFields])
      | succ g' =>
        simp only [Gdl.compileFields] at h
        obtain ⟨h1, h2⟩ : Gdl.opsInsert ops (.idx i) (.opScalarSlice (off + i) k) = ops' ∧ cache = c' := by
          simpa using h
        subst hi
        rw [← h1]
        exact opsLookup_insert_self _ _ _
  | cons f pre' ih =>
    intro fuel cache i ops ops' c' htot h
    have htot' : total = (i + 1) + (pre' ++ [sf]).length := by
      simp at htot ⊢; omega
    cases fuel with
    | zero => exact absurd h (by simp [Gdl.compileFields])
    | succ g =>
      rcases hft : f.type with k2 | e2 | n2
      · simp only [List.cons_append, Gdl.compileFields, hft, scalarKind_scalarT] at h
        exact ih g _ (i + 1) _ ops' c' htot' h
      · rcases hk2 : Gdl.scalarKind e2 with _ | k2
        · simp only [List.cons_append, Gdl.compileFields, hft, scalarKind_sliceT, hk2] at h
          rcases hcl : Gdl.cacheLookup cache e2 with _ | sub
          · rw [hcl] at h
            rcases hcc : Gdl.compile env g cache e2 with e' | pc
            · rw [hcc] at h
              exact absurd h (by simp)
            · obtain ⟨sub, c''⟩ := pc
              rw [hcc] at h
              exact ih g _ (i + 1) _ ops' c' htot' h
          · rw [hcl] at h
            exact ih g _ (i + 1) _ ops' c' htot' h
        · simp only [List.cons_append, Gdl.compileFields, hft, scalarKind_sliceT, hk2] at h
          by_cases hlast : i + 1 ≠ total
          · rw [if_pos hlast] at h
            exact absurd h (by simp)
          · rw [if_neg hlast] at h
            exact ih g _ (i + 1) _ ops' c' htot' h
      · simp only [List.cons_append, Gdl.compileFields, hft, scalarKind_structT] at h
        exact ih g _ (i + 1) _ ops' c' htot' h

/-- C6: scalar-collection placement is enforced at compile time.  If the
(post-identity) field list has a slice-of-scalar field followed by more
fields, `compile` returns an error before any data is processed; when
that field is last and compilation succeeds, the program maps the
field's index key to the scalar-collection operation, and that operation
consumes all remaining words, parsing and appending each in turn and
leaving no remainder. -/
theorem C6_scalar_collection_must_be_last
    (env : Gdl.Env) (fuel : Nat) (cache : Gdl.Cache) (name : String)
    (sfs0 : List Gdl.FieldDef) (ii : Option Nat)
    (pre post : List Gdl.FieldDef) (sf : Gdl.FieldDef) (et : Gdl.GoType) (k : Gdl.ScalarKind)
    (henv : Gdl.envLookup env name = some sfs0)
    (hid : Gdl.idIndex sfs0 = .ok ii)
    (hsplit : (if ii.isSome then sfs0.tail else sfs0) = pre ++ sf :: post)
    (hsf : sf.type = .sliceT et)
    (hk : Gdl.scalarKind et = some k) :
    (post ≠ [] → ∃ e, Gdl.compile env fuel cache (.structT name) = .error e)
    ∧ (post = [] → ∀ p c, Gdl.compile env fuel cache (.structT name) = .ok (p, c) →
        Gdl.opsLookup p.ops (.idx pre.length) =
          some (.opScalarSlice ((if ii.isSome then 1 else 0) + pre.length) k))
    ∧ (∀ (g j : Nat) (fs es : List Gdl.GoVal) (words : List String) (vals : List Gdl.GoVal),
        fs.get? j = some (.vslice es) →
        Gdl.specParseAll k words = some vals →
        Gdl.applyOp env (g + 1) (.opScalarSlice j k) (.vstruct fs) words =
          .ok (.vstruct (fs.set j (.vslice (es ++ vals))), [])) := by
  refine ⟨?_, ?_, ?_⟩
  · intro hpost
    cases fuel with
    | zero => exact ⟨.outOfFuel, rfl⟩
    | succ g =>
      simp only [Gdl.compile, henv, hid, hsplit]
      obtain ⟨e, he⟩ := compileFields_scalar_slice_not_last env (.structT name)
        ((pre ++ sf :: post).length) (if ii.isSome then 1 else 0) sf et k post hsf hk hpost
        pre g cache 0 [] (by simp)
      rw [he]
      exact ⟨e, rfl⟩
  · intro hpost p c hok
    subst hpost
    cases fuel with
    | zero => exact absurd hok (by simp [Gdl.compile])
    | succ g =>
      simp only [Gdl.compile, henv, hid, hsplit] at hok
      rcases hcf : Gdl.compileFields env g cache (.structT name) ((pre ++ [sf]).length)
          (if ii.isSome then 1 else 0) (pre ++ [sf]) 0 [] with e | oc
      · rw [hcf] at hok
        exact absurd hok (by simp)
      · obtain ⟨ops', c''⟩ := oc
        rw [hcf] at hok
        obtain ⟨hp, hc⟩ : Gdl.Program.mk (.structT name) ii ops' = p ∧ c'' = c := by
          simpa using hok
        have hlk := compileFields_scalar_slice_last_lookup env (.structT name)
          ((pre ++ [sf]).length) (if ii.isSome then 1 else 0) sf et k hsf hk
          pre g cache 0 [] ops' c'' (by simp) hcf
        have hlen : (pre ++ [sf]).length - 1 = pre.length := by simp
        rw [← hp]
        simpa [Gdl.Program.ops, hlen] using hlk
  · intro g j fs es words vals hget hparse
    simp only [List.get?_eq_getElem?] at hget
    simp [Gdl.applyOp, Gdl.fieldByIndex, hget,
      appendParsed_all_ok k words es vals hparse, Gdl.setFieldAt]

/-- C6 witness: compiling `type bad struct { Xs []string; Y string }`
fails because the scalar-collection field is not last. -/
theorem C6_scalar_collection_must_be_last_witness :
    ∃ e, Gdl.compile Gdl.badEnv 10 [] (.structT "bad") = .error e :=
  (C6_scalar_collection_must_be_last Gdl.badEnv 10 [] "bad"
    [⟨"Xs", "", .sliceT Gdl.strT⟩, ⟨"Y", "", Gdl.strT⟩] none
    [] [⟨"Y", "", Gdl.strT⟩] ⟨"Xs", "", .sliceT Gdl.strT⟩ Gdl.strT .string
    rfl rfl rfl rfl rfl).1 (by simp)

/-! ### Claim C5 -/

/-- C5: repetition-sugar expansion.  When `parseValues` meets an open
delimiter with `words` accumulated as a prefix, and the inner list
parses to `list`, it emits exactly one Value per inner Value, each with
word list `words ++ inner.Words` (stated by the `List.map`); and
concretely, parsing "a (\nb c\nd e\n)" yields exactly the two Values
with word lists ["a","b","c"] and ["a","d","e"]. -/
theorem C5_repetition_sugar_expansion
    (fuel : Nat) (words : List String) (tok : Gdl.Token) (lex lex' : Gdl.Lexer)
    (list : List Gdl.Value)
    (htok : tok.kind = .lparen)
    (hlist : Gdl.parseList fuel lex .rparen [] = .ok list lex') :
    Gdl.parseValuesLoop (fuel + 1) words tok lex =
      .ok (list.map fun lv => Gdl.newValue (words ++ lv.Words) lex') lex'
    ∧ Gdl.Parse "a (\nb c\nd e\n)" =
      .ok [⟨["a", "b", "c"], "<no file>", 4⟩, ⟨["a", "d", "e"], "<no file>", 4⟩] := by
  refine ⟨?_, rfl⟩
  obtain ⟨k, v, e⟩ := tok
  simp only at htok
  subst htok
  simp only [Gdl.parseValuesLoop, hlist]

/-- C5 witness: with prefix ["a"] and the inner list "b c\nd e\n)", the
open-delimiter branch emits the two concatenated values. -/
theorem C5_repetition_sugar_expansion_witness :
    Gdl.parseValuesLoop 31 ["a"] { kind := .lparen } Gdl.lexC5 =
      .ok (Gdl.listC5.map fun lv => Gdl.newValue (["a"] ++ lv.Words) Gdl.lexC5') Gdl.lexC5' :=
  (C5_repetition_sugar_expansion 30 ["a"] { kind := .lparen } Gdl.lexC5 Gdl.lexC5'
    Gdl.listC5 rfl rfl).1

/-! ### Claim C1 -/

/-- C1: keyed merge of repeated nested records.  The first conjunct
confirms the claim's same-key example: decoding "command create arg name
string" and "command create arg size int" yields one "create" element
with both Args.  The second conjunct evaluates the code at the claim's
distinct-key case: decoding "command create arg name string" and
"command delete arg size int" yields the IDENTICAL single "create"
element — the "delete" key is dropped and its words merge into
"create" — instead of two distinct elements, because the ID scan loop
leaves `elem` on the last element when no identity matches (`elem` is
invalid only for an empty collection), as the remaining conjuncts show
at the scan itself: the non-matching singleton is still chosen. -/
theorem C1_identity_merge_reuses_last_element_on_distinct_key :
    (Gdl.UnmarshalValues Gdl.cmdEnv 50 [] [Gdl.vCreate1, Gdl.vCreate2]
      (.structT "commands") Gdl.cmdZero).1 = .ok Gdl.mergedCmd
    ∧ (Gdl.UnmarshalValues Gdl.cmdEnv 50 [] [Gdl.vCreate1, Gdl.vDelete]
      (.structT "commands") Gdl.cmdZero).1 = .ok Gdl.mergedCmd
    ∧ Gdl.idMatches (.vstr "create") "delete" = false
    ∧ Gdl.idScanLoop 0 "delete" [.vstruct [.vstr "create", .vslice []]] 0 = .ok (some 0) :=
  ⟨rfl, rfl, rfl, rfl⟩

/-! ### Claim C7 -/

/-- C7: sequence-level selector rule of the Head/List `UnmarshalValues`.
With the leading selector word matched to field `j`:
a collection (slice) field appends — the Value is unmarshaled into a
fresh zero element placed at the end of the slice, and the seen-set is
unchanged; a non-collection field whose selector was already used is the
decode error "occurs more than once"; and a first use of a
non-collection selector unmarshals into the field and records the
selector in the seen-set (so a later repeat errors). -/
theorem C7_sequence_selector_rule
    (env : Gdl.Env) (fuel : Nat) (vals : List GdlHead.Value) (sfs : List Gdl.FieldDef)
    (fs : List Gdl.GoVal) (seen : List String)
    (val : GdlHead.Value) (key : String) (hrest : List String)
    (j : Nat) (sf : Gdl.FieldDef)
    (hhead : val.Head = key :: hrest)
    (hkey : key ≠ "")
    (hmatch : GdlHead.matchField key sfs = some (j, sf)) :
    (∀ et es, sf.type = .sliceT et → fs.get? j = some (.vslice es) →
      GdlHead.unmarshalValuesLoop env (fuel + 1) (val :: vals) sfs (.vstruct fs) seen =
        match GdlHead.unmarshalReflectValue env fuel val et (Gdl.zeroValue env fuel et) with
        | .error e => .error e
        | .ok elem' =>
          GdlHead.unmarshalValuesLoop env fuel vals sfs
            (.vstruct (fs.set j (.vslice (es ++ [elem'])))) seen)
    ∧ ((∀ et, sf.type ≠ .sliceT et) → key ∈ seen → ∀ fv, fs.get? j = some fv →
      GdlHead.unmarshalValuesLoop env (fuel + 1) (val :: vals) sfs (.vstruct fs) seen =
        .error (.occursMoreThanOnce val.Pos key))
    ∧ ((∀ et, sf.type ≠ .sliceT et) → key ∉ seen → ∀ fv, fs.get? j = some fv →
      GdlHead.unmarshalValuesLoop env (fuel + 1) (val :: vals) sfs (.vstruct fs) seen =
        match GdlHead.unmarshalReflectValue env fuel val sf.type fv with
        | .error e => .error e
        | .ok fv' =>
          GdlHead.unmarshalValuesLoop env fuel vals sfs (.vstruct (fs.set j fv'))
            (seen ++ [key])) := by
  refine ⟨?_, ?_, ?_⟩
  · intro et es hslice hget
    simp only [GdlHead.unmarshalValuesLoop, hhead, hkey, if_false, hmatch, hget, hslice]
  · intro hns hseen fv hget
    have hc : seen.contains key = true := by simpa using hseen
    rcases hft : sf.type with k2 | e2 | n2
    · simp only [GdlHead.unmarshalValuesLoop, hhead, hkey, if_false, hmatch, hget, hft, hc,
        if_true]
    · exact absurd hft (hns e2)
    · simp only [GdlHead.unmarshalValuesLoop, hhead, hkey, if_false, hmatch, hget, hft, hc,
        if_true]
  · intro hns hseen fv hget
    have hc : seen.contains key = false := by simpa using hseen
    rcases hft : sf.type with k2 | e2 | n2
    · simp only [GdlHead.unmarshalValuesLoop, hhead, hkey, if_false, hmatch, hget, hft, hc,
        Bool.false_eq_true]
    · exact absurd hft (hns e2)
    · simp only [GdlHead.unmarshalValuesLoop, hhead, hkey, if_false, hmatch, hget, hft, hc,
        Bool.false_eq_true]

/-- C7 witness: after "name a" was decoded into the non-collection
`Name` field of `S`, a second Value "name b" fails with "occurs more
than once". -/
theorem C7_sequence_selector_rule_witness :
    GdlHead.unmarshalValuesLoop Gdl.sEnv 50 [GdlHead.Value.mk ["name", "b"] [] "" 0]
      Gdl.sFields (.vstruct Gdl.sAfterNameA) ["name"] =
      .error (.occursMoreThanOnce "?" "name") := by
  have h := (C7_sequence_selector_rule Gdl.sEnv 49 [] Gdl.sFields Gdl.sAfterNameA ["name"]
    (GdlHead.Value.mk ["name", "b"] [] "" 0) "name" ["b"] 0 ⟨"Name", "", .structT "NameS"⟩
    rfl (by decide) rfl).2.1 (fun et => by simp) (by simp) (.vstruct [.vstr "a"]) rfl
  simpa [GdlHead.Value.Pos] using h
